import Mathlib

/-!
Verification of the schema snapshot/diff subsystem: a shallow embedding of
`src/monitoring/diff_engine.py` and `src/monitoring/schema_monitor.py`.

Modelling conventions:
* A Python `dict` is an insertion-ordered association list with unique keys
  (`List (String × _)`); `dict` indexing is `alookup`.
* Python `set`s built from `dict` keys are modelled as the key lists
  (unique by construction); set difference and intersection are filters.
  Set iteration order is implementation-defined in Python; the model fixes
  the insertion order of the underlying dict, which is one admissible order.
* Python floats produced by the similarity score are modelled as rationals:
  every score is of the form `k / max len₁ len₂` with small integer
  numerators, and all threshold comparisons are far from rounding error.
* `datetime.utcnow()` timestamps (`detected_at`) are real-time data and are
  outside the model; the `SchemaDiff` record carries the remaining fields.
-/

namespace SchemaVerify

/-- Python `dict` lookup on an association list (first matching key). -/
def alookup (k : String) : List (String × α) → Option α
  | [] => none
  | (k2, v) :: rest => if k = k2 then some v else alookup k rest

/-- Column map of one table: column name → type string (a Python `dict`). -/
abbrev ColMap := List (String × String)

/-- A schema snapshot: table name → column map (a Python `dict`). -/
abbrev Schema := List (String × ColMap)

/-- `d.keys()` of a Python dict, in insertion order. -/
def keyList (m : List (String × α)) : List String := m.map Prod.fst

/-- Set difference `a - b` on key sets, modelled on lists. -/
def setDiff (a b : List String) : List String :=
  a.filter fun x => decide (x ∉ b)

/-- Set intersection `a & b` on key sets, modelled on lists. -/
def setInter (a b : List String) : List String :=
  a.filter fun x => decide (x ∈ b)

/-- `DiffType` enumeration from `diff_engine.py`. -/
inductive DiffType where
  | TABLE_ADDED
  | TABLE_REMOVED
  | TABLE_RENAMED
  | COLUMN_ADDED
  | COLUMN_REMOVED
  | COLUMN_RENAMED
  | COLUMN_TYPE_CHANGED
  | INDEX_ADDED
  | INDEX_REMOVED
deriving DecidableEq, Repr

/-- The `.value` string of each `DiffType` member. -/
def DiffType.value : DiffType → String
  | .TABLE_ADDED => "table_added"
  | .TABLE_REMOVED => "table_removed"
  | .TABLE_RENAMED => "table_renamed"
  | .COLUMN_ADDED => "column_added"
  | .COLUMN_REMOVED => "column_removed"
  | .COLUMN_RENAMED => "column_renamed"
  | .COLUMN_TYPE_CHANGED => "column_type_changed"
  | .INDEX_ADDED => "index_added"
  | .INDEX_REMOVED => "index_removed"

/-- The `SchemaDiff` dataclass (without the real-time `detected_at` field).
`old_value`/`new_value` are `Optional`; every construction site in the
source stores a string when present. -/
structure SchemaDiff where
  diff_type : DiffType
  table_name : String
  column_name : Option String := none
  old_value : Option String := none
  new_value : Option String := none
deriving DecidableEq, Repr

/-- `a` occurs at the start of `b` (helper for Python `in` on strings). -/
def startsList : List Char → List Char → Bool
  | [], _ => true
  | _ :: _, [] => false
  | x :: xs, y :: ys => x = y && startsList xs ys

/-- `a` occurs contiguously inside `b`: Python `a in b` on strings. -/
def subIn (a : List Char) : List Char → Bool
  | [] => startsList a []
  | y :: ys => startsList a (y :: ys) || subIn a ys

/-- `SchemaDiffEngine._similarity_score`. -/
def similarity_score (str1 str2 : String) : ℚ :=
  if str1 = str2 then 1
  else if subIn str1.data str2.data || subIn str2.data str1.data then 7/10
  else
    let common_chars := str1.data.toFinset ∩ str2.data.toFinset
    if common_chars.card ≠ 0 then
      (common_chars.card : ℚ) / ((max str1.length str2.length : ℕ) : ℚ)
    else 0

/-- Python `str.lower()` on one character (ASCII range, which covers every
identifier the heuristic compares). -/
def pyLowerChar (c : Char) : Char :=
  if 65 ≤ c.toNat ∧ c.toNat ≤ 90 then Char.ofNat (c.toNat + 32) else c

/-- Python `str.lower()` (ASCII range). -/
def pyLower (s : String) : String := String.mk (s.data.map pyLowerChar)

/-- The similarity score as every call site uses it:
`_similarity_score(a.lower(), b.lower())`. -/
def sim (a b : String) : ℚ := similarity_score (pyLower a) (pyLower b)

/-- The inner candidate loop of `_detect_renamed_tables` /
`_detect_renamed_columns`: starting from `best_score = 0.5`,
`best_match = None`, scan the added names and keep the first candidate
strictly improving the running best score. Returns the final
`(best_match, best_score)`. -/
def bestMatch (old_name : String) (added : List String) : Option String × ℚ :=
  added.foldl
    (fun acc new_name =>
      let score := similarity_score (pyLower old_name) (pyLower new_name)
      if acc.2 < score then (some new_name, score) else acc)
    (none, 1/2)

/-- `SchemaDiffEngine._detect_renamed_tables`: greedy matching over the
removed names; an accepted added name is removed from the candidate pool. -/
def detect_renamed_tables (removed added : List String) : List (String × String) :=
  match removed with
  | [] => []
  | o :: rest =>
    match (bestMatch o added).1 with
    | some n => (o, n) :: detect_renamed_tables rest (added.erase n)
    | none => detect_renamed_tables rest added

/-- `SchemaDiffEngine._detect_renamed_columns` (same algorithm as for
tables; the `table_name` argument is unused by the source logic). -/
def detect_renamed_columns (table_name : String) (removed added : List String) :
    List (String × String) :=
  match removed with
  | [] => []
  | o :: rest =>
    match (bestMatch o added).1 with
    | some n => (o, n) :: detect_renamed_columns table_name rest (added.erase n)
    | none => detect_renamed_columns table_name rest added

/-- `SchemaDiffEngine._compare_table_schema`. -/
def compare_table_schema (detect_renames : Bool) (table_name : String)
    (old_columns new_columns : ColMap) : List SchemaDiff :=
  let old_col_names := keyList old_columns
  let new_col_names := keyList new_columns
  let addedCols := setDiff new_col_names old_col_names
  let removedCols := setDiff old_col_names new_col_names
  let addDiffs := addedCols.map fun c =>
    { diff_type := DiffType.COLUMN_ADDED, table_name := table_name,
      column_name := some c, new_value := alookup c new_columns }
  let removeDiffs := removedCols.map fun c =>
    { diff_type := DiffType.COLUMN_REMOVED, table_name := table_name,
      column_name := some c, old_value := alookup c old_columns }
  let renamedCols :=
    if detect_renames then detect_renamed_columns table_name removedCols addedCols
    else []
  let renameDiffs := renamedCols.map fun p =>
    { diff_type := DiffType.COLUMN_RENAMED, table_name := table_name,
      column_name := some p.1, old_value := some p.1, new_value := some p.2 }
  let old_remaining := old_col_names.filter fun c =>
    decide (c ∉ renamedCols.map Prod.fst)
  let new_remaining := new_col_names.filter fun c =>
    decide (c ∉ renamedCols.map Prod.snd)
  let commonCols := setInter old_remaining new_remaining
  let typeDiffs := commonCols.filterMap fun c =>
    if alookup c old_columns ≠ alookup c new_columns then
      some { diff_type := DiffType.COLUMN_TYPE_CHANGED, table_name := table_name,
             column_name := some c, old_value := alookup c old_columns,
             new_value := alookup c new_columns }
    else none
  addDiffs ++ removeDiffs ++ renameDiffs ++ typeDiffs

/-- `SchemaDiffEngine.compute_diff`. -/
def compute_diff (detect_renames : Bool) (old_schema new_schema : Schema) :
    List SchemaDiff :=
  let old_tables := keyList old_schema
  let new_tables := keyList new_schema
  let addedT := setDiff new_tables old_tables
  let removedT := setDiff old_tables new_tables
  let addDiffs := addedT.map fun t =>
    { diff_type := DiffType.TABLE_ADDED, table_name := t, new_value := some "added" }
  let removeDiffs := removedT.map fun t =>
    { diff_type := DiffType.TABLE_REMOVED, table_name := t, old_value := some "removed" }
  let renamedT :=
    if detect_renames then detect_renamed_tables removedT addedT else []
  let renameDiffs := renamedT.map fun p =>
    { diff_type := DiffType.TABLE_RENAMED, table_name := p.1,
      old_value := some p.1, new_value := some p.2 }
  let old_remaining := old_tables.filter fun t => decide (t ∉ renamedT.map Prod.fst)
  let new_remaining := new_tables.filter fun t => decide (t ∉ renamedT.map Prod.snd)
  let commonT := setInter old_remaining new_remaining
  let tableDiffs := commonT.flatMap fun t =>
    compare_table_schema detect_renames t
      ((alookup t old_schema).getD []) ((alookup t new_schema).getD [])
  addDiffs ++ removeDiffs ++ renameDiffs ++ tableDiffs

/-- The dictionary produced by `SchemaDiff.to_dict` (sans `detected_at`). -/
structure DiffDict where
  diff_type : String
  table_name : String
  column_name : Option String
  old_value : Option String
  new_value : Option String
deriving DecidableEq, Repr

/-- Python `str()` restricted to strings (the only values the engine
stores in `old_value`/`new_value`). -/
def pyStr (s : String) : String := s

/-- `SchemaDiff.to_dict`: `str(x) if x else None` maps a falsy value
(`None` or the empty string) to `None` and a truthy one to `str(x)`. -/
def SchemaDiff.to_dict (d : SchemaDiff) : DiffDict :=
  { diff_type := d.diff_type.value
    table_name := d.table_name
    column_name := d.column_name
    old_value :=
      match d.old_value with
      | none => none
      | some v => if v = "" then none else some (pyStr v)
    new_value :=
      match d.new_value with
      | none => none
      | some v => if v = "" then none else some (pyStr v) }

/-! ### `schema_monitor.py`: canonical JSON serialization and SHA-256

`SchemaMonitor._compute_hash` is
`hashlib.sha256(json.dumps(schema, sort_keys=True).encode()).hexdigest()`.
The serializer below reproduces `json.dumps` with `sort_keys=True`,
default separators `", "` / `": "`, and `ensure_ascii=True`; the hash is a
byte-for-byte SHA-256 over the UTF-8 encoding of that string.
-/

/-- The `"` character (JSON string delimiter). -/
def quoteChar : Char := Char.ofNat 34

/-- The `\` character (JSON escape lead-in). -/
def bslashChar : Char := Char.ofNat 92

/-- The `{` character. -/
def lbraceChar : Char := Char.ofNat 123

/-- The `}` character. -/
def rbraceChar : Char := Char.ofNat 125

/-- Lowercase hexadecimal digit, as used by Python `\uXXXX` escapes. -/
def hexDigit (n : Nat) : Char :=
  if n < 10 then Char.ofNat (48 + n) else Char.ofNat (87 + n)

/-- Four lowercase hex digits of a value below `0x10000`. -/
def hex4 (n : Nat) : List Char :=
  [hexDigit (n / 4096 % 16), hexDigit (n / 256 % 16),
   hexDigit (n / 16 % 16), hexDigit (n % 16)]

/-- Python `json` escaping of one character (`ensure_ascii=True`): short
escapes for `"`, `\`, and the five named control characters; `\uXXXX` for
all other characters outside printable ASCII `0x20`–`0x7e`, using a
surrogate pair above `0xffff`. -/
def escChar (c : Char) : List Char :=
  let n := c.toNat
  if c = quoteChar then [bslashChar, quoteChar]
  else if c = bslashChar then [bslashChar, bslashChar]
  else if n = 10 then [bslashChar, Char.ofNat 110]
  else if n = 9 then [bslashChar, Char.ofNat 116]
  else if n = 13 then [bslashChar, Char.ofNat 114]
  else if n = 8 then [bslashChar, Char.ofNat 98]
  else if n = 12 then [bslashChar, Char.ofNat 102]
  else if n < 32 then bslashChar :: Char.ofNat 117 :: hex4 n
  else if n < 127 then [c]
  else if n < 65536 then bslashChar :: Char.ofNat 117 :: hex4 n
  else
    (bslashChar :: Char.ofNat 117 :: hex4 (55296 + (n - 65536) / 1024)) ++
    (bslashChar :: Char.ofNat 117 :: hex4 (56320 + (n - 65536) % 1024))

/-- JSON escaping of a character list. -/
def escChars (l : List Char) : List Char := l.flatMap escChar

/-- A JSON string literal: `"` ++ escaped body ++ `"`. -/
def renderStr (s : String) : List Char :=
  quoteChar :: escChars s.data ++ [quoteChar]

/-- Sort a dict's items by key, as `sorted(d.items())` does for unique
string keys (Python compares the key component first). -/
def sortByKey (m : List (String × α)) : List (String × α) :=
  m.insertionSort fun a b => a.1 ≤ b.1

/-- Body of a serialized column map: `"col": "type"` entries joined by
`", "`. -/
def renderColEntries : List (String × String) → List Char
  | [] => []
  | [(k, v)] => renderStr k ++ ':' :: ' ' :: renderStr v
  | (k, v) :: e :: rest =>
    renderStr k ++ ':' :: ' ' :: renderStr v ++ ',' :: ' ' ::
      renderColEntries (e :: rest)

/-- A serialized column map object, keys sorted. -/
def renderCol (m : ColMap) : List Char :=
  lbraceChar :: renderColEntries (sortByKey m) ++ [rbraceChar]

/-- Body of a serialized schema: `"table": {...}` entries joined by
`", "`. -/
def renderTopEntries : List (String × ColMap) → List Char
  | [] => []
  | [(k, cm)] => renderStr k ++ ':' :: ' ' :: renderCol cm
  | (k, cm) :: e :: rest =>
    renderStr k ++ ':' :: ' ' :: renderCol cm ++ ',' :: ' ' ::
      renderTopEntries (e :: rest)

/-- `json.dumps(schema, sort_keys=True)` as a character list. -/
def jsonChars (s : Schema) : List Char :=
  lbraceChar :: renderTopEntries (sortByKey s) ++ [rbraceChar]

/-- `json.dumps(schema, sort_keys=True)` as a string. -/
def json_dumps_sorted (s : Schema) : String := String.mk (jsonChars s)

/-- UTF-8 encoding of one character (`str.encode()`), as byte values. -/
def utf8Char (c : Char) : List Nat :=
  let n := c.toNat
  if n < 128 then [n]
  else if n < 2048 then [192 ||| (n >>> 6), 128 ||| (n &&& 63)]
  else if n < 65536 then
    [224 ||| (n >>> 12), 128 ||| ((n >>> 6) &&& 63), 128 ||| (n &&& 63)]
  else
    [240 ||| (n >>> 18), 128 ||| ((n >>> 12) &&& 63),
     128 ||| ((n >>> 6) &&& 63), 128 ||| (n &&& 63)]

/-- UTF-8 encoding of a string, as byte values. -/
def utf8Encode (s : String) : List Nat := s.data.flatMap utf8Char

/-! SHA-256 over a list of byte values, per FIPS 180-4. -/

/-- Truncate to a 32-bit word. -/
def w32 (n : Nat) : Nat := n % 4294967296

/-- Right rotation of a 32-bit word. -/
def rotr (k x : Nat) : Nat := w32 ((x >>> k) ||| (x <<< (32 - k)))

/-- SHA-256 round constants. -/
def shaK : List Nat :=
  [1116352408, 1899447441, 3049323471, 3921009573, 961987163,
   1508970993, 2453635748, 2870763221, 3624381080, 310598401,
   607225278, 1426881987, 1925078388, 2162078206, 2614888103,
   3248222580, 3835390401, 4022224774, 264347078, 604807628,
   770255983, 1249150122, 1555081692, 1996064986, 2554220882,
   2821834349, 2952996808, 3210313671, 3336571891, 3584528711,
   113926993, 338241895, 666307205, 773529912, 1294757372,
   1396182291, 1695183700, 1986661051, 2177026350, 2456956037,
   2730485921, 2820302411, 3259730800, 3345764771, 3516065817,
   3600352804, 4094571909, 275423344, 430227734, 506948616,
   659060556, 883997877, 958139571, 1322822218, 1537002063,
   1747873779, 1955562222, 2024104815, 2227730452, 2361852424,
   2428436474, 2756734187, 3204031479, 3329325298]

/-- SHA-256 initial hash value. -/
def shaH0 : Nat × Nat × Nat × Nat × Nat × Nat × Nat × Nat :=
  (1779033703, 3144134277, 1013904242, 2773480762,
   1359893119, 2600822924, 528734635, 1541459225)

/-- Message padding: `0x80`, zeros to 56 mod 64, 64-bit big-endian length. -/
def shaPad (msg : List Nat) : List Nat :=
  let bitLen := 8 * msg.length
  let zeros := (119 - msg.length % 64) % 64
  msg ++ 128 :: List.replicate zeros 0 ++
    (List.range 8).map fun i => (bitLen >>> (8 * (7 - i))) % 256

/-- Big-endian 32-bit words from bytes. -/
def toWords : List Nat → List Nat
  | a :: b :: c :: d :: rest => (((a * 256 + b) * 256 + c) * 256 + d) :: toWords rest
  | _ => []

/-- One step of the message-schedule extension. -/
def extendStep (ws : List Nat) : List Nat :=
  let l := ws.length
  let s0w := ws.getD (l - 15) 0
  let s1w := ws.getD (l - 2) 0
  let s0 := (rotr 7 s0w) ^^^ (rotr 18 s0w) ^^^ (s0w >>> 3)
  let s1 := (rotr 17 s1w) ^^^ (rotr 19 s1w) ^^^ (s1w >>> 10)
  ws ++ [w32 (ws.getD (l - 16) 0 + s0 + ws.getD (l - 7) 0 + s1)]

/-- Extend the 16 chunk words to the 64 schedule words. -/
def extendWords : Nat → List Nat → List Nat
  | 0, ws => ws
  | n + 1, ws => extendWords n (extendStep ws)

/-- One SHA-256 compression round. -/
def shaRound (regs : Nat × Nat × Nat × Nat × Nat × Nat × Nat × Nat)
    (kw : Nat × Nat) : Nat × Nat × Nat × Nat × Nat × Nat × Nat × Nat :=
  let (a, b, c, d, e, f, g, h) := regs
  let s1 := (rotr 6 e) ^^^ (rotr 11 e) ^^^ (rotr 25 e)
  let ch := (e &&& f) ^^^ ((4294967295 - e) &&& g)
  let temp1 := w32 (h + s1 + ch + kw.1 + kw.2)
  let s0 := (rotr 2 a) ^^^ (rotr 13 a) ^^^ (rotr 22 a)
  let maj := (a &&& b) ^^^ (a &&& c) ^^^ (b &&& c)
  let temp2 := w32 (s0 + maj)
  (w32 (temp1 + temp2), a, b, c, w32 (d + temp1), e, f, g)

/-- Process one 64-byte chunk. -/
def shaChunk (regs : Nat × Nat × Nat × Nat × Nat × Nat × Nat × Nat)
    (chunk : List Nat) : Nat × Nat × Nat × Nat × Nat × Nat × Nat × Nat :=
  let ws := extendWords 48 (toWords chunk)
  let (a, b, c, d, e, f, g, h) := (shaK.zip ws).foldl shaRound regs
  let (a0, b0, c0, d0, e0, f0, g0, h0) := regs
  (w32 (a0 + a), w32 (b0 + b), w32 (c0 + c), w32 (d0 + d),
   w32 (e0 + e), w32 (f0 + f), w32 (g0 + g), w32 (h0 + h))

/-- Split into 64-byte chunks. -/
def chunks64 (l : List Nat) : List (List Nat) :=
  if l = [] then [] else l.take 64 :: chunks64 (l.drop 64)
termination_by l.length
decreasing_by
  simp only [List.length_drop]
  rename_i h
  have : l.length ≠ 0 := fun hl => h (List.eq_nil_of_length_eq_zero hl)
  omega

/-- Eight lowercase hex digits of a 32-bit word. -/
def hex8 (n : Nat) : List Char := hex4 (n >>> 16) ++ hex4 (n % 65536)

/-- SHA-256 hex digest of a byte list (`hashlib.sha256(...).hexdigest()`). -/
def sha256hex (msg : List Nat) : String :=
  let (a, b, c, d, e, f, g, h) := (chunks64 (shaPad msg)).foldl shaChunk shaH0
  String.mk (hex8 a ++ hex8 b ++ hex8 c ++ hex8 d ++ hex8 e ++ hex8 f ++
    hex8 g ++ hex8 h)

/-- `SchemaMonitor._compute_hash`. -/
def compute_hash (schema : Schema) : String :=
  sha256hex (utf8Encode (json_dumps_sorted schema))

/-! ### `SchemaMonitor` cycle state -/

/-- The monitor state mutated by `_check_schema`: the stored snapshot and
stored hash (`None` before the initial capture). -/
structure MonitorState where
  current_schema : Schema
  schema_hash : Option String
deriving DecidableEq

/-- Outcome of `_capture_schema` in one cycle: a snapshot, or a
database/introspection failure (`SQLAlchemyError`, the spec's
`ConnectivityError`), which `_check_schema` catches. -/
inductive CaptureResult where
  | ok : Schema → CaptureResult
  | connectivity_error : String → CaptureResult
deriving DecidableEq

/-- `SchemaMonitor._check_schema`, one cycle: on a capture failure the
`except` handler logs and returns with the state untouched; otherwise the
new hash is compared with the stored hash, diffs are computed on change,
and when non-empty the state is advanced and the callback invoked (its own
failures are caught and do not undo the state update). The boolean reports
whether the callback was invoked. -/
def check_schema (detect_renames : Bool) (capture : CaptureResult)
    (st : MonitorState) : MonitorState × Bool :=
  match capture with
  | .connectivity_error _ => (st, false)
  | .ok new_schema =>
    let new_hash := compute_hash new_schema
    if some new_hash ≠ st.schema_hash then
      let diffs := compute_diff detect_renames st.current_schema new_schema
      if diffs ≠ [] then
        ({ current_schema := new_schema, schema_hash := some new_hash }, true)
      else (st, false)
    else (st, false)

/-- `SchemaMonitor._monitoring_loop` over a finite trace of capture
outcomes: every cycle runs `_check_schema`; all exceptions are caught
inside the cycle, so each cycle is a total state transition and the loop
proceeds to the next interval. Returns the final state and the per-cycle
callback-invocation flags. -/
def run_cycles (detect_renames : Bool) (captures : List CaptureResult)
    (st : MonitorState) : MonitorState × List Bool :=
  match captures with
  | [] => (st, [])
  | c :: rest =>
    let r := check_schema detect_renames c st
    let rr := run_cycles detect_renames rest r.1
    (rr.1, r.2 :: rr.2)

/-! ### Aliasing model for `get_current_schema`

Python's `dict.copy()` is shallow.  To express aliasing we give the
per-table column dicts explicit addresses in a heap: the monitor's
`current_schema` is a top-level dict from table name to the address of its
column dict.  `dict.copy()` yields a fresh top-level dict (a distinct
value here) holding the same addresses; a nested write through any alias
updates the heap and is therefore visible through every dict that holds
the address. -/

/-- Heap of column dicts, indexed by address. -/
abbrev ColHeap := Nat → ColMap

/-- A top-level schema dict: table name → address of its column dict. -/
abbrev TopDict := List (String × Nat)

/-- `SchemaMonitor.get_current_schema`: `self.current_schema.copy()` — a
fresh top-level dict carrying the same (table, column-dict address)
entries. -/
def get_current_schema (stored : TopDict) : TopDict := stored

/-- Dereference a top-level dict through the heap to its snapshot content. -/
def snapContent (h : ColHeap) (d : TopDict) : Schema :=
  d.map fun e => (e.1, h e.2)

/-- Python `d[c] = v` on a column dict: replace in place or append. -/
def dictSet (c v : String) : ColMap → ColMap
  | [] => [(c, v)]
  | (k, w) :: rest => if k = c then (c, v) :: rest else (k, w) :: dictSet c v rest

/-- A nested write `d[t][c] = v` through an alias: mutate the column dict
stored at `addr` in the heap. -/
def heapWrite (h : ColHeap) (addr : Nat) (c v : String) : ColHeap :=
  fun a => if a = addr then dictSet c v (h a) else h a

/-! ### Specification-side notions for the hash claim

`contentEq` is snapshot content equality (same tables, same per-table
column → type mappings, irrespective of insertion order); `SnapPerm` is a
permutation of a snapshot's internal key ordering; `WfSchema` records the
Python `dict` invariant that keys are unique.  `parseStrBody` decodes a
JSON-escaped string body up to its closing quote; it is the inverse of
`escChars` used to prove the serializer injective. -/

/-- Column lookup through a snapshot: `s[t][c]`, when present. -/
def lookupCol (s : Schema) (t c : String) : Option String :=
  (alookup t s).bind fun cm => alookup c cm

/-- Content equality of snapshots: same table set, same column/type
lookups. For key-unique snapshots this is equality of the underlying
partial maps. -/
def contentEq (s1 s2 : Schema) : Prop :=
  (∀ t, (alookup t s1).isSome = (alookup t s2).isSome) ∧
  ∀ t c, lookupCol s1 t c = lookupCol s2 t c

/-- The Python `dict` invariant: unique keys at both levels. -/
def WfSchema (s : Schema) : Prop :=
  (keyList s).Nodup ∧ ∀ p ∈ s, (keyList p.2).Nodup

/-- A permutation of a snapshot's internal key ordering: the top-level
entries are permuted and each table's column entries are permuted. -/
def SnapPerm (s1 s2 : Schema) : Prop :=
  (keyList s1).Perm (keyList s2) ∧
  ∀ t cm1 cm2, alookup t s1 = some cm1 → alookup t s2 = some cm2 → cm1.Perm cm2

/-- Canonical form of a snapshot: both levels sorted by key (the order
`json.dumps(·, sort_keys=True)` serializes in). -/
def canonSnap (s : Schema) : Schema :=
  (sortByKey s).map fun e => (e.1, sortByKey e.2)

/-- Value of a lowercase hex digit (lenient outside the hex range). -/
def hexVal (c : Char) : Nat :=
  if 48 ≤ c.toNat ∧ c.toNat ≤ 57 then c.toNat - 48
  else if 97 ≤ c.toNat ∧ c.toNat ≤ 102 then c.toNat - 87
  else 0

/-- Inverse of the two-character JSON escapes (lenient elsewhere). -/
def unescShort (e : Char) : Char :=
  if e.toNat = 110 then Char.ofNat 10
  else if e.toNat = 116 then Char.ofNat 9
  else if e.toNat = 114 then Char.ofNat 13
  else if e.toNat = 98 then Char.ofNat 8
  else if e.toNat = 102 then Char.ofNat 12
  else e

/-- Decode one escaped segment (a literal character or one escape
sequence) at the head of a JSON-escaped string body: the decoded
character and the remainder. Fails on a terminating quote. -/
def decodeSeg (l : List Char) : Option (Char × List Char) :=
  match l with
  | [] => none
  | ch :: rest =>
    if ch = quoteChar then none
    else if ch = bslashChar then
      match rest with
      | [] => none
      | e :: rest2 =>
        if e.toNat = 117 then
          match rest2 with
          | h1 :: h2 :: h3 :: h4 :: rest3 =>
            let v := ((hexVal h1 * 16 + hexVal h2) * 16 + hexVal h3) * 16 + hexVal h4
            if 55296 ≤ v ∧ v < 56320 then
              match rest3 with
              | b2 :: u2 :: g1 :: g2 :: g3 :: g4 :: rest4 =>
                if b2 = bslashChar ∧ u2.toNat = 117 then
                  let w := ((hexVal g1 * 16 + hexVal g2) * 16 + hexVal g3) * 16 +
                    hexVal g4
                  some (Char.ofNat (65536 + (v - 55296) * 1024 + (w - 56320)),
                    rest4)
                else none
              | _ => none
            else some (Char.ofNat v, rest3)
          | _ => none
        else some (unescShort e, rest2)
    else some (ch, rest)

/-- Decode a JSON-escaped string body up to the closing quote, returning
the decoded characters and the remainder after the quote. Inverse of
`escChars` on encoder output. -/
def parseStrBody (l : List Char) : Option (List Char × List Char) :=
  match l with
  | [] => none
  | ch :: rest =>
    if ch = quoteChar then some ([], rest)
    else
      match decodeSeg (ch :: rest) with
      | none => none
      | some cr =>
        if _h : cr.2.length < rest.length + 1 then
          (parseStrBody cr.2).map fun p => (cr.1 :: p.1, p.2)
        else none
termination_by l.length

/-! ### Helper lemmas -/

theorem setDiff_self (l : List String) : setDiff l l = [] := by
  simp [setDiff]

theorem setInter_self (l : List String) : setInter l l = l := by
  simp [setInter, List.filter_eq_self]

theorem detect_renamed_columns_nil (t : String) (added : List String) :
    detect_renamed_columns t [] added = [] := rfl

theorem detect_renamed_tables_nil (added : List String) :
    detect_renamed_tables [] added = [] := rfl

theorem compare_table_schema_self (d : Bool) (t : String) (m : ColMap) :
    compare_table_schema d t m m = [] := by
  unfold compare_table_schema
  simp [setDiff_self, setInter_self, detect_renamed_columns_nil]

/-! ### Concrete evaluations for the `customer_id` / `customerId` pair -/

theorem sim_customer_id_eval :
    similarity_score "customer_id" "customerid" = 10/11 := by
  have h0 : ¬ ("customer_id" : String) = "customerid" := by decide
  have h1 : subIn "customer_id".data "customerid".data = false := by decide
  have h2 : subIn "customerid".data "customer_id".data = false := by decide
  have h3 : ("customer_id".data.toFinset ∩ "customerid".data.toFinset).card = 10 := by
    decide
  have h4 : max "customer_id".length "customerid".length = 11 := by decide
  rw [similarity_score, if_neg h0, h1, h2]
  simp only [Bool.or_self, if_false, h3, h4]
  norm_num

theorem bestMatch_customer_id_eval :
    bestMatch "customer_id" ["customerId"] = (some "customerId", 10/11) := by
  have hl1 : pyLower "customer_id" = "customer_id" := by decide
  have hl2 : pyLower "customerId" = "customerid" := by decide
  rw [bestMatch]
  simp only [List.foldl, hl1, hl2, sim_customer_id_eval]
  norm_num

theorem detect_renamed_columns_customer_id_eval :
    detect_renamed_columns "customers" ["customer_id"] ["customerId"] =
      [("customer_id", "customerId")] := by
  rw [detect_renamed_columns, bestMatch_customer_id_eval]
  simp [detect_renamed_columns]

theorem similarity_score_range (a b : String) :
    0 ≤ similarity_score a b ∧ similarity_score a b ≤ 1 := by
  unfold similarity_score
  split
  · norm_num
  split
  · norm_num
  dsimp only
  split
  · constructor
    · exact div_nonneg (Nat.cast_nonneg _) (Nat.cast_nonneg _)
    · rcases Nat.eq_zero_or_pos (max a.length b.length) with h0 | hpos
      · rw [h0]
        norm_num
      · rw [div_le_one (by exact_mod_cast hpos)]
        have hsub : (a.data.toFinset ∩ b.data.toFinset).card ≤ a.data.toFinset.card :=
          Finset.card_le_card Finset.inter_subset_left
        have hlen : a.data.toFinset.card ≤ a.length := a.data.toFinset_card_le
        exact_mod_cast le_trans (le_trans hsub hlen) (le_max_left _ _)
  · norm_num

theorem mem_setDiff (x : String) (a b : List String) :
    x ∈ setDiff a b ↔ x ∈ a ∧ x ∉ b := by
  simp [setDiff]

theorem mem_setInter (x : String) (a b : List String) :
    x ∈ setInter a b ↔ x ∈ a ∧ x ∈ b := by
  simp [setInter]

theorem alookup_some_mem {α : Type} (k : String) (m : List (String × α)) (v : α)
    (h : alookup k m = some v) : k ∈ keyList m := by
  induction m with
  | nil => simp [alookup] at h
  | cons e rest ih =>
    rw [alookup] at h
    by_cases hk : k = e.1
    · simp [keyList, hk]
    · rw [if_neg hk] at h
      simp only [keyList, List.map_cons, List.mem_cons]
      exact Or.inr (ih h)

theorem alookup_eq_none_iff {α : Type} (k : String) (m : List (String × α)) :
    alookup k m = none ↔ k ∉ keyList m := by
  induction m with
  | nil => simp [alookup, keyList]
  | cons e rest ih =>
    rw [alookup]
    by_cases hk : k = e.1
    · simp [hk, keyList]
    · rw [if_neg hk, ih]
      simp [keyList, hk]

theorem mem_alookup_isSome {α : Type} (k : String) (m : List (String × α))
    (h : k ∈ keyList m) : ∃ v, alookup k m = some v := by
  rcases ho : alookup k m with _ | v
  · exact absurd ((alookup_eq_none_iff k m).mp ho) (not_not.mpr h)
  · exact ⟨v, rfl⟩

/-! ### Counting helpers -/

theorem countP_flatMap_zero {α β : Type} (f : α → List β) (p : β → Bool)
    (l : List α) (h : ∀ x ∈ l, (f x).countP p = 0) :
    (l.flatMap f).countP p = 0 := by
  induction l with
  | nil => rfl
  | cons x rest ih =>
    rw [List.flatMap_cons, List.countP_append, h x (List.mem_cons_self x rest),
      ih fun y hy => h y (List.mem_cons_of_mem x hy)]

theorem countP_flatMap_single {α β : Type} (l : List α) (hnd : l.Nodup) (t : α)
    (ht : t ∈ l) (f : α → List β) (p : β → Bool)
    (h0 : ∀ x ∈ l, x ≠ t → (f x).countP p = 0) :
    (l.flatMap f).countP p = (f t).countP p := by
  induction l with
  | nil => simp at ht
  | cons x rest ih =>
    rw [List.flatMap_cons, List.countP_append]
    rcases List.mem_cons.mp ht with h | h
    · subst h
      rw [countP_flatMap_zero f p rest fun y hy =>
        h0 y (List.mem_cons_of_mem t hy)
          (fun hyt => (List.nodup_cons.mp hnd).1 (hyt ▸ hy))]
      omega
    · rw [h0 x (List.mem_cons_self x rest)
        (fun hxt => (List.nodup_cons.mp hnd).1 (hxt ▸ h)),
        ih (List.nodup_cons.mp hnd).2 h fun y hy hyt =>
          h0 y (List.mem_cons_of_mem x hy) hyt]
      omega

theorem countP_single_elem {α : Type} (l : List α) (hnd : l.Nodup) (c : α)
    (hc : c ∈ l) (q : α → Bool) (h0 : ∀ x ∈ l, x ≠ c → q x = false) :
    l.countP q = if q c then 1 else 0 := by
  induction l with
  | nil => simp at hc
  | cons x rest ih =>
    rw [List.countP_cons]
    rcases List.mem_cons.mp hc with h | h
    · subst h
      rw [List.countP_eq_zero.mpr fun y hy => by
        rw [h0 y (List.mem_cons_of_mem c hy)
          (fun hyc => (List.nodup_cons.mp hnd).1 (hyc ▸ hy))]
        exact Bool.false_ne_true]
      omega
    · rw [h0 x (List.mem_cons_self x rest)
        (fun hxc => (List.nodup_cons.mp hnd).1 (hxc ▸ h)),
        ih (List.nodup_cons.mp hnd).2 h fun y hy hyc =>
          h0 y (List.mem_cons_of_mem x hy) hyc]
      simp

/-! ### JSON string escaping round-trip -/

theorem hexVal_hexDigit : ∀ d, d < 16 → hexVal (hexDigit d) = d := by decide

theorem char_toNat_valid (c : Char) :
    c.toNat < 55296 ∨ (57344 ≤ c.toNat ∧ c.toNat < 1114112) := by
  rcases c.valid with h | ⟨h1, h2⟩
  · left
    exact_mod_cast h
  · right
    constructor <;> exact_mod_cast ‹_›

theorem escChars_cons (c : Char) (a : List Char) :
    escChars (c :: a) = escChar c ++ escChars a := by
  simp [escChars]

theorem decodeSeg_lit (ch : Char) (rest : List Char) (h1 : ch ≠ quoteChar)
    (h2 : ch ≠ bslashChar) : decodeSeg (ch :: rest) = some (ch, rest) := by
  unfold decodeSeg
  dsimp only
  rw [if_neg h1, if_neg h2]

theorem decodeSeg_short (e : Char) (rest2 : List Char) (he : ¬ e.toNat = 117) :
    decodeSeg (bslashChar :: e :: rest2) = some (unescShort e, rest2) := by
  unfold decodeSeg
  dsimp only
  rw [if_neg (by decide : ¬ bslashChar = quoteChar), if_pos rfl, if_neg he]

theorem decodeSeg_bmp (n : Nat) (hn : n < 65536) (hns : ¬(55296 ≤ n ∧ n < 56320))
    (rest3 : List Char) :
    decodeSeg (bslashChar :: Char.ofNat 117 :: (hex4 n ++ rest3)) =
      some (Char.ofNat n, rest3) := by
  have hd1 : n / 4096 % 16 < 16 := Nat.mod_lt _ (by norm_num)
  have hd2 : n / 256 % 16 < 16 := Nat.mod_lt _ (by norm_num)
  have hd3 : n / 16 % 16 < 16 := Nat.mod_lt _ (by norm_num)
  have hd4 : n % 16 < 16 := Nat.mod_lt _ (by norm_num)
  rw [hex4]
  simp only [List.cons_append, List.nil_append]
  unfold decodeSeg
  dsimp only
  rw [if_neg (by decide : ¬ bslashChar = quoteChar), if_pos rfl,
    if_pos (by decide : (Char.ofNat 117).toNat = 117)]
  simp only [hexVal_hexDigit _ hd1, hexVal_hexDigit _ hd2, hexVal_hexDigit _ hd3,
    hexVal_hexDigit _ hd4]
  have harith : ((n / 4096 % 16 * 16 + n / 256 % 16) * 16 + n / 16 % 16) * 16 +
      n % 16 = n := by omega
  rw [harith, if_neg hns]

theorem decodeSeg_pair (n : Nat) (hn1 : 65536 ≤ n) (hn2 : n < 1114112)
    (rest4 : List Char) :
    decodeSeg ((bslashChar :: Char.ofNat 117 ::
        hex4 (55296 + (n - 65536) / 1024)) ++
      ((bslashChar :: Char.ofNat 117 :: hex4 (56320 + (n - 65536) % 1024)) ++
        rest4)) = some (Char.ofNat n, rest4) := by
  have hmod : (n - 65536) % 1024 < 1024 :=
    Nat.mod_lt _ (by norm_num)
  set hi := 55296 + (n - 65536) / 1024 with hhi_def
  set lo := 56320 + (n - 65536) % 1024 with hlo_def
  have hhi : hi < 65536 := by rw [hhi_def]; omega
  have hlo : lo < 65536 := by rw [hlo_def]; omega
  have hd1 : hi / 4096 % 16 < 16 := Nat.mod_lt _ (by norm_num)
  have hd2 : hi / 256 % 16 < 16 := Nat.mod_lt _ (by norm_num)
  have hd3 : hi / 16 % 16 < 16 := Nat.mod_lt _ (by norm_num)
  have hd4 : hi % 16 < 16 := Nat.mod_lt _ (by norm_num)
  have he1 : lo / 4096 % 16 < 16 := Nat.mod_lt _ (by norm_num)
  have he2 : lo / 256 % 16 < 16 := Nat.mod_lt _ (by norm_num)
  have he3 : lo / 16 % 16 < 16 := Nat.mod_lt _ (by norm_num)
  have he4 : lo % 16 < 16 := Nat.mod_lt _ (by norm_num)
  rw [hex4, hex4]
  simp only [List.cons_append, List.nil_append]
  unfold decodeSeg
  dsimp only
  rw [if_neg (by decide : ¬ bslashChar = quoteChar), if_pos rfl,
    if_pos (by decide : (Char.ofNat 117).toNat = 117)]
  simp only [hexVal_hexDigit _ hd1, hexVal_hexDigit _ hd2, hexVal_hexDigit _ hd3,
    hexVal_hexDigit _ hd4, hexVal_hexDigit _ he1, hexVal_hexDigit _ he2,
    hexVal_hexDigit _ he3, hexVal_hexDigit _ he4]
  have harith1 : ((hi / 4096 % 16 * 16 + hi / 256 % 16) * 16 + hi / 16 % 16) * 16 +
      hi % 16 = hi := by omega
  have harith2 : ((lo / 4096 % 16 * 16 + lo / 256 % 16) * 16 + lo / 16 % 16) * 16 +
      lo % 16 = lo := by omega
  rw [harith1, harith2]
  rw [if_pos (show 55296 ≤ hi ∧ hi < 56320 by omega)]
  simp only [true_and]
  rw [if_pos (by decide : (Char.ofNat 117).toNat = 117)]
  have hchar : 65536 + (hi - 55296) * 1024 + (lo - 56320) = n := by
    rw [hhi_def, hlo_def]
    omega
  rw [hchar]

theorem decodeSeg_escChar (c : Char) (l : List Char) :
    decodeSeg (escChar c ++ l) = some (c, l) := by
  rcases char_toNat_valid c with hval | ⟨hval1, hval2⟩ <;>
  · rw [escChar]
    by_cases h1 : c = quoteChar
    · rw [if_pos h1]
      subst h1
      rw [List.cons_append, List.cons_append, List.nil_append,
        decodeSeg_short _ _ (by decide)]
      rfl
    rw [if_neg h1]
    by_cases h2 : c = bslashChar
    · rw [if_pos h2]
      subst h2
      rw [List.cons_append, List.cons_append, List.nil_append,
        decodeSeg_short _ _ (by decide)]
      rfl
    rw [if_neg h2]
    by_cases h3 : c.toNat = 10
    · rw [if_pos h3, List.cons_append, List.cons_append, List.nil_append,
        decodeSeg_short _ _ (by decide)]
      have hu : unescShort (Char.ofNat 110) = c := by
        rw [show unescShort (Char.ofNat 110) = Char.ofNat 10 from by decide, ← h3,
          Char.ofNat_toNat]
      rw [hu]
    rw [if_neg h3]
    by_cases h4 : c.toNat = 9
    · rw [if_pos h4, List.cons_append, List.cons_append, List.nil_append,
        decodeSeg_short _ _ (by decide)]
      have hu : unescShort (Char.ofNat 116) = c := by
        rw [show unescShort (Char.ofNat 116) = Char.ofNat 9 from by decide, ← h4,
          Char.ofNat_toNat]
      rw [hu]
    rw [if_neg h4]
    by_cases h5 : c.toNat = 13
    · rw [if_pos h5, List.cons_append, List.cons_append, List.nil_append,
        decodeSeg_short _ _ (by decide)]
      have hu : unescShort (Char.ofNat 114) = c := by
        rw [show unescShort (Char.ofNat 114) = Char.ofNat 13 from by decide, ← h5,
          Char.ofNat_toNat]
      rw [hu]
    rw [if_neg h5]
    by_cases h6 : c.toNat = 8
    · rw [if_pos h6, List.cons_append, List.cons_append, List.nil_append,
        decodeSeg_short _ _ (by decide)]
      have hu : unescShort (Char.ofNat 98) = c := by
        rw [show unescShort (Char.ofNat 98) = Char.ofNat 8 from by decide, ← h6,
          Char.ofNat_toNat]
      rw [hu]
    rw [if_neg h6]
    by_cases h7 : c.toNat = 12
    · rw [if_pos h7, List.cons_append, List.cons_append, List.nil_append,
        decodeSeg_short _ _ (by decide)]
      have hu : unescShort (Char.ofNat 102) = c := by
        rw [show unescShort (Char.ofNat 102) = Char.ofNat 12 from by decide, ← h7,
          Char.ofNat_toNat]
      rw [hu]
    rw [if_neg h7]
    by_cases h8 : c.toNat < 32
    · rw [if_pos h8, List.cons_append, List.cons_append,
        decodeSeg_bmp c.toNat (by omega) (by omega), Char.ofNat_toNat]
    rw [if_neg h8]
    by_cases h9 : c.toNat < 127
    · rw [if_pos h9, List.cons_append, List.nil_append,
        decodeSeg_lit c l h1 h2]
    rw [if_neg h9]
    by_cases h10 : c.toNat < 65536
    · rw [if_pos h10, List.cons_append, List.cons_append,
        decodeSeg_bmp c.toNat (by omega) (by omega), Char.ofNat_toNat]
    · rw [if_neg h10, List.append_assoc,
        decodeSeg_pair c.toNat (by omega) (by omega), Char.ofNat_toNat]

theorem escChar_shape (c : Char) :
    ∃ ch rest, escChar c = ch :: rest ∧ ch ≠ quoteChar := by
  rcases h : escChar c with _ | ⟨ch, rest⟩
  · have hd := decodeSeg_escChar c []
    rw [h, List.nil_append] at hd
    exact absurd hd (by unfold decodeSeg; simp)
  · refine ⟨ch, rest, rfl, fun hq => ?_⟩
    have hd := decodeSeg_escChar c []
    rw [h, hq, List.cons_append] at hd
    unfold decodeSeg at hd
    dsimp only at hd
    rw [if_pos rfl] at hd
    exact Option.noConfusion hd

theorem parse_quote (l : List Char) :
    parseStrBody (quoteChar :: l) = some ([], l) := by
  rw [parseStrBody.eq_def]
  dsimp only
  rw [if_pos rfl]

theorem parseStrBody_escChar (c : Char) (l : List Char) :
    parseStrBody (escChar c ++ l) =
      (parseStrBody l).map fun p => (c :: p.1, p.2) := by
  obtain ⟨ch, rest, heq, hne⟩ := escChar_shape c
  rw [heq, List.cons_append, parseStrBody.eq_def]
  dsimp only
  rw [if_neg hne, ← List.cons_append, ← heq, decodeSeg_escChar]
  dsimp only
  rw [dif_pos (by simp only [List.length_append]; omega)]

theorem parse_escChars (a : List Char) :
    ∀ r : List Char,
      parseStrBody (escChars a ++ quoteChar :: r) = some (a, r) := by
  induction a with
  | nil =>
    intro r
    rw [show escChars [] = [] from rfl, List.nil_append, parse_quote]
  | cons c a ih =>
    intro r
    rw [escChars_cons, List.append_assoc, parseStrBody_escChar, ih r]
    rfl

theorem esc_split (a b x y : List Char)
    (h : escChars a ++ quoteChar :: x = escChars b ++ quoteChar :: y) :
    a = b ∧ x = y := by
  have hp := congrArg parseStrBody h
  rw [parse_escChars, parse_escChars] at hp
  injection hp with hp
  injection hp with hp1 hp2
  exact ⟨hp1, hp2⟩


/-! ### Sorted association lists -/

instance {α : Type} : IsTotal (String × α) (fun a b => a.1 ≤ b.1) :=
  ⟨fun a b => le_total a.1 b.1⟩

instance {α : Type} : IsTrans (String × α) (fun a b => a.1 ≤ b.1) :=
  ⟨fun _ _ _ h1 h2 => le_trans h1 h2⟩

theorem sortByKey_perm {α : Type} (m : List (String × α)) :
    (sortByKey m).Perm m :=
  List.perm_insertionSort _ m

theorem sortByKey_sorted {α : Type} (m : List (String × α)) :
    List.Sorted (fun a b : String × α => a.1 ≤ b.1) (sortByKey m) :=
  List.sorted_insertionSort _ m

theorem keyList_sortByKey_nodup {α : Type} (m : List (String × α))
    (hnd : (keyList m).Nodup) : (keyList (sortByKey m)).Nodup :=
  (((sortByKey_perm m).map Prod.fst).nodup_iff).mpr hnd

theorem alookup_perm {α : Type} (m1 m2 : List (String × α)) (h : m1.Perm m2)
    (hnd : (keyList m1).Nodup) (k : String) : alookup k m1 = alookup k m2 := by
  induction h with
  | nil => rfl
  | cons x _ ih =>
    rw [alookup, alookup]
    by_cases hk : k = x.1
    · rw [if_pos hk, if_pos hk]
    · rw [if_neg hk, if_neg hk]
      exact ih (List.nodup_cons.mp hnd).2
  | swap x y l =>
    have hne : y.1 ≠ x.1 := by
      have h2 := hnd
      simp only [keyList, List.map_cons, List.nodup_cons, List.mem_cons] at h2
      exact fun hc => h2.1 (Or.inl hc)
    by_cases hky : k = y.1
    · by_cases hkx : k = x.1
      · exact absurd (hky ▸ hkx : y.1 = x.1) hne
      · have hL : alookup k (y :: x :: l) = some y.2 := by
          rw [alookup, if_pos hky]
        have hR : alookup k (x :: y :: l) = some y.2 := by
          rw [alookup, if_neg hkx, alookup, if_pos hky]
        rw [hL, hR]
    · by_cases hkx : k = x.1
      · have hL : alookup k (y :: x :: l) = some x.2 := by
          rw [alookup, if_neg hky, alookup, if_pos hkx]
        have hR : alookup k (x :: y :: l) = some x.2 := by
          rw [alookup, if_pos hkx]
        rw [hL, hR]
      · have hL : alookup k (y :: x :: l) = alookup k l := by
          rw [alookup, if_neg hky, alookup, if_neg hkx]
        have hR : alookup k (x :: y :: l) = alookup k l := by
          rw [alookup, if_neg hkx, alookup, if_neg hky]
        rw [hL, hR]
  | trans h1 _ ih1 ih2 =>
    rw [ih1 hnd, ih2 (((h1.map Prod.fst).nodup_iff).mp hnd)]

theorem alookup_sortByKey {α : Type} (m : List (String × α))
    (hnd : (keyList m).Nodup) (k : String) :
    alookup k (sortByKey m) = alookup k m :=
  alookup_perm _ _ (sortByKey_perm m) (keyList_sortByKey_nodup m hnd) k

theorem alookup_map_value {α β : Type} (g : α → β) (k : String) :
    ∀ m : List (String × α),
      alookup k (m.map fun e => (e.1, g e.2)) = (alookup k m).map g := by
  intro m
  induction m with
  | nil => rfl
  | cons e rest ih =>
    rw [List.map_cons, alookup, alookup]
    by_cases hk : k = e.1
    · rw [if_pos hk, if_pos hk]
      rfl
    · rw [if_neg hk, if_neg hk, ih]

theorem keyList_map_value {α β : Type} (g : α → β) (m : List (String × α)) :
    keyList (m.map fun e => (e.1, g e.2)) = keyList m := by
  induction m with
  | nil => rfl
  | cons e rest ih =>
    simp only [keyList, List.map_cons] at *
    rw [ih]

theorem alookup_some_pair_mem {α : Type} (k : String) (v : α) :
    ∀ m : List (String × α), alookup k m = some v → (k, v) ∈ m := by
  intro m
  induction m with
  | nil => intro h; simp [alookup] at h
  | cons e rest ih =>
    intro h
    rw [alookup] at h
    by_cases hk : k = e.1
    · rw [if_pos hk] at h
      injection h with h
      exact List.mem_cons.mpr (Or.inl (by rw [hk, ← h, Prod.mk.eta]))
    · rw [if_neg hk] at h
      exact List.mem_cons_of_mem e (ih h)

theorem sorted_key_lookup_ext {α : Type} :
    ∀ (l1 l2 : List (String × α)),
      List.Sorted (fun a b : String × α => a.1 ≤ b.1) l1 →
      List.Sorted (fun a b : String × α => a.1 ≤ b.1) l2 →
      (keyList l1).Nodup → (keyList l2).Nodup →
      (∀ k, alookup k l1 = alookup k l2) → l1 = l2 := by
  intro l1
  induction l1 with
  | nil =>
    intro l2 _ _ _ _ hl
    cases l2 with
    | nil => rfl
    | cons e rest =>
      have := hl e.1
      rw [alookup, alookup, if_pos rfl] at this
      exact absurd this (by simp)
  | cons e1 t1 ih =>
    intro l2 hs1 hs2 hn1 hn2 hl
    cases l2 with
    | nil =>
      have := hl e1.1
      rw [alookup, alookup, if_pos rfl] at this
      exact absurd this (by simp)
    | cons e2 t2 =>
      have hmem1 : e1.1 = e2.1 ∨ e1.1 ∈ keyList t2 := by
        have := hl e1.1
        rw [alookup, if_pos rfl] at this
        rcases hx : alookup e1.1 (e2 :: t2) with _ | v
        · rw [hx] at this
          exact absurd this (by simp)
        · have hmem := alookup_some_mem _ _ _ hx
          simpa [keyList] using hmem
      have hmem2 : e2.1 = e1.1 ∨ e2.1 ∈ keyList t1 := by
        have hthis := hl e2.1
        have hR : alookup e2.1 (e2 :: t2) = some e2.2 := by
          rw [alookup, if_pos rfl]
        rw [hR] at hthis
        have hmem := alookup_some_mem _ _ _ hthis
        simpa [keyList] using hmem
      have hkeq : e1.1 = e2.1 := by
        rcases hmem1 with h | h
        · exact h
        · rcases hmem2 with h2 | h2
          · exact h2.symm
          · have hle1 : e2.1 ≤ e1.1 := by
              rcases List.mem_map.mp h with ⟨p, hp, hpe⟩
              exact hpe ▸ List.rel_of_sorted_cons hs2 p hp
            have hle2 : e1.1 ≤ e2.1 := by
              rcases List.mem_map.mp h2 with ⟨p, hp, hpe⟩
              exact hpe ▸ List.rel_of_sorted_cons hs1 p hp
            exact le_antisymm hle2 hle1
      have hveq : e1.2 = e2.2 := by
        have := hl e1.1
        rw [alookup, if_pos rfl, alookup, if_pos hkeq] at this
        injection this
      have htail : t1 = t2 := by
        refine ih t2 hs1.of_cons hs2.of_cons
          (List.nodup_cons.mp hn1).2 (List.nodup_cons.mp hn2).2 fun k => ?_
        by_cases hk : k = e1.1
        · have hnone1 : alookup k t1 = none := by
            rw [alookup_eq_none_iff, hk]
            exact (List.nodup_cons.mp hn1).1
          have hnone2 : alookup k t2 = none := by
            rw [alookup_eq_none_iff, hk, hkeq]
            exact (List.nodup_cons.mp hn2).1
          rw [hnone1, hnone2]
        · have := hl k
          rw [alookup, if_neg hk, alookup, if_neg (hkeq ▸ hk)] at this
          exact this
      calc e1 :: t1 = (e1.1, e1.2) :: t1 := by rw [Prod.mk.eta]
        _ = (e2.1, e2.2) :: t2 := by rw [hkeq, hveq, htail]
        _ = e2 :: t2 := by rw [Prod.mk.eta]

/-! ### Canonical snapshots and the serializer -/

theorem alookup_canonSnap (s : Schema) (hnd : (keyList s).Nodup) (t : String) :
    alookup t (canonSnap s) = (alookup t s).map sortByKey := by
  rw [canonSnap, alookup_map_value, alookup_sortByKey s hnd]

theorem canonSnap_keys_nodup (s : Schema) (hnd : (keyList s).Nodup) :
    (keyList (canonSnap s)).Nodup := by
  rw [canonSnap, keyList_map_value]
  exact keyList_sortByKey_nodup s hnd

theorem canonSnap_sorted (s : Schema) :
    List.Sorted (fun a b : String × ColMap => a.1 ≤ b.1) (canonSnap s) := by
  rw [canonSnap]
  exact List.pairwise_map.mpr ((sortByKey_sorted s).imp fun hab => hab)

theorem canonSnap_eq_of_contentEq (s1 s2 : Schema) (h1 : WfSchema s1)
    (h2 : WfSchema s2) (hc : contentEq s1 s2) : canonSnap s1 = canonSnap s2 := by
  refine sorted_key_lookup_ext (canonSnap s1) (canonSnap s2) (canonSnap_sorted s1)
    (canonSnap_sorted s2) (canonSnap_keys_nodup s1 h1.1)
    (canonSnap_keys_nodup s2 h2.1) fun t => ?_
  rw [alookup_canonSnap s1 h1.1, alookup_canonSnap s2 h2.1]
  rcases ho1 : alookup t s1 with _ | cm1 <;> rcases ho2 : alookup t s2 with _ | cm2
  · rfl
  · have := hc.1 t
    rw [ho1, ho2] at this
    simp at this
  · have := hc.1 t
    rw [ho1, ho2] at this
    simp at this
  · have hnd1 : (keyList cm1).Nodup := h1.2 (t, cm1) (alookup_some_pair_mem _ _ _ ho1)
    have hnd2 : (keyList cm2).Nodup := h2.2 (t, cm2) (alookup_some_pair_mem _ _ _ ho2)
    have hsort : sortByKey cm1 = sortByKey cm2 := by
      refine sorted_key_lookup_ext (sortByKey cm1) (sortByKey cm2)
        (sortByKey_sorted cm1) (sortByKey_sorted cm2)
        (keyList_sortByKey_nodup cm1 hnd1) (keyList_sortByKey_nodup cm2 hnd2)
        fun c => ?_
      rw [alookup_sortByKey cm1 hnd1, alookup_sortByKey cm2 hnd2]
      have := hc.2 t c
      rw [lookupCol, lookupCol, ho1, ho2] at this
      exact this
    show some (sortByKey cm1) = some (sortByKey cm2)
    rw [hsort]

theorem canonSnap_imp_contentEq (s1 s2 : Schema) (h1 : WfSchema s1)
    (h2 : WfSchema s2) (heq : canonSnap s1 = canonSnap s2) : contentEq s1 s2 := by
  have hlook : ∀ t, (alookup t s1).map sortByKey = (alookup t s2).map sortByKey := by
    intro t
    rw [← alookup_canonSnap s1 h1.1, ← alookup_canonSnap s2 h2.1, heq]
  constructor
  · intro t
    have hthis := hlook t
    rcases ho1 : alookup t s1 with _ | cm1
    · rcases ho2 : alookup t s2 with _ | cm2
      · rfl
      · rw [ho1, ho2] at hthis
        simp at hthis
    · rcases ho2 : alookup t s2 with _ | cm2
      · rw [ho1, ho2] at hthis
        simp at hthis
      · rfl
  · intro t c
    have hthis := hlook t
    rw [lookupCol, lookupCol]
    rcases ho1 : alookup t s1 with _ | cm1
    · rcases ho2 : alookup t s2 with _ | cm2
      · rfl
      · rw [ho1, ho2] at hthis
        simp at hthis
    · rcases ho2 : alookup t s2 with _ | cm2
      · rw [ho1, ho2] at hthis
        simp at hthis
      · rw [ho1, ho2] at hthis
        have hsort : sortByKey cm1 = sortByKey cm2 := by simpa using hthis
        have hnd1 : (keyList cm1).Nodup :=
          h1.2 (t, cm1) (alookup_some_pair_mem _ _ _ ho1)
        have hnd2 : (keyList cm2).Nodup :=
          h2.2 (t, cm2) (alookup_some_pair_mem _ _ _ ho2)
        show alookup c cm1 = alookup c cm2
        rw [← alookup_sortByKey cm1 hnd1, ← alookup_sortByKey cm2 hnd2, hsort]

theorem snapPerm_contentEq (s1 s2 : Schema) (h1 : WfSchema s1)
    (hp : SnapPerm s1 s2) : contentEq s1 s2 := by
  obtain ⟨hkeys, hcols⟩ := hp
  constructor
  · intro t
    by_cases hm : t ∈ keyList s1
    · obtain ⟨v1, hv1⟩ := mem_alookup_isSome t s1 hm
      obtain ⟨v2, hv2⟩ := mem_alookup_isSome t s2 (hkeys.mem_iff.mp hm)
      rw [hv1, hv2]
      rfl
    · rw [(alookup_eq_none_iff t s1).mpr hm,
        (alookup_eq_none_iff t s2).mpr fun hc => hm (hkeys.mem_iff.mpr hc)]
  · intro t c
    rw [lookupCol, lookupCol]
    rcases ho1 : alookup t s1 with _ | cm1
    · have ho2 : alookup t s2 = none := by
        rw [alookup_eq_none_iff] at ho1 ⊢
        exact fun hc => ho1 (hkeys.mem_iff.mpr hc)
      rw [ho2]
    · have hm2 : t ∈ keyList s2 := hkeys.mem_iff.mp (alookup_some_mem _ _ _ ho1)
      obtain ⟨cm2, hcm2⟩ := mem_alookup_isSome t s2 hm2
      rw [hcm2]
      show alookup c cm1 = alookup c cm2
      exact alookup_perm cm1 cm2 (hcols t cm1 cm2 ho1 hcm2)
        (h1.2 (t, cm1) (alookup_some_pair_mem _ _ _ ho1)) c

theorem renderTop_ext :
    ∀ l1 l2 : List (String × ColMap),
      (l1.map fun e => (e.1, sortByKey e.2)) = (l2.map fun e => (e.1, sortByKey e.2)) →
      renderTopEntries l1 = renderTopEntries l2 := by
  intro l1
  induction l1 with
  | nil =>
    intro l2 h
    cases l2 with
    | nil => rfl
    | cons e t => simp at h
  | cons e1 t1 ih =>
    intro l2 h
    cases l2 with
    | nil => simp at h
    | cons e2 t2 =>
      simp only [List.map_cons, List.cons.injEq, Prod.mk.injEq] at h
      obtain ⟨⟨hk, hcm⟩, htail⟩ := h
      cases t1 with
      | nil =>
        cases t2 with
        | nil =>
          show renderStr e1.1 ++ ':' :: ' ' :: renderCol e1.2 =
            renderStr e2.1 ++ ':' :: ' ' :: renderCol e2.2
          rw [hk]
          unfold renderCol
          rw [hcm]
        | cons f2 t2' => simp at htail
      | cons f1 t1' =>
        cases t2 with
        | nil => simp at htail
        | cons f2 t2' =>
          show renderStr e1.1 ++ ':' :: ' ' :: renderCol e1.2 ++ ',' :: ' ' ::
              renderTopEntries (f1 :: t1') =
            renderStr e2.1 ++ ':' :: ' ' :: renderCol e2.2 ++ ',' :: ' ' ::
              renderTopEntries (f2 :: t2')
          rw [hk, ih (f2 :: t2') htail]
          unfold renderCol
          rw [hcm]

theorem renderColEntries_cons_norm (k v : String) (t : ColMap) (r : List Char) :
    renderColEntries ((k, v) :: t) ++ rbraceChar :: r =
      quoteChar :: (escChars k.data ++ quoteChar :: ':' :: ' ' ::
        quoteChar :: (escChars v.data ++ quoteChar ::
          (match t with
           | [] => rbraceChar :: r
           | e :: ts => ',' :: ' ' :: (renderColEntries (e :: ts) ++ rbraceChar :: r)))) := by
  cases t with
  | nil => simp [renderColEntries, renderStr, List.append_assoc]
  | cons e ts => simp [renderColEntries, renderStr, List.append_assoc]

theorem renderColEntries_split :
    ∀ (m1 m2 : ColMap) (r1 r2 : List Char),
      renderColEntries m1 ++ rbraceChar :: r1 =
        renderColEntries m2 ++ rbraceChar :: r2 →
      m1 = m2 ∧ r1 = r2 := by
  intro m1
  induction m1 with
  | nil =>
    intro m2 r1 r2 h
    cases m2 with
    | nil =>
      simp only [renderColEntries, List.nil_append, List.cons.injEq] at h
      exact ⟨rfl, h.2⟩
    | cons e t =>
      obtain ⟨k2, v2⟩ := e
      rw [renderColEntries_cons_norm] at h
      simp only [renderColEntries, List.nil_append, List.cons.injEq] at h
      exact absurd h.1 (by decide)
  | cons e1 t1 ih =>
    intro m2 r1 r2 h
    obtain ⟨k1, v1⟩ := e1
    cases m2 with
    | nil =>
      rw [renderColEntries_cons_norm] at h
      simp only [renderColEntries, List.nil_append, List.cons.injEq] at h
      exact absurd h.1 (by decide)
    | cons e2 t2 =>
      obtain ⟨k2, v2⟩ := e2
      rw [renderColEntries_cons_norm, renderColEntries_cons_norm] at h
      simp only [List.cons.injEq] at h
      obtain ⟨hk1, hk2⟩ := esc_split _ _ _ _ h.2
      have hkeq : k1 = k2 := by
        cases k1
        cases k2
        simp only [String.data] at hk1
        rw [hk1]
      simp only [List.cons.injEq] at hk2
      obtain ⟨hv1, hv2⟩ := esc_split _ _ _ _ hk2.2.2.2
      have hveq : v1 = v2 := by
        cases v1
        cases v2
        simp only [String.data] at hv1
        rw [hv1]
      cases t1 with
      | nil =>
        cases t2 with
        | nil =>
          simp only [List.cons.injEq] at hv2
          exact ⟨by rw [hkeq, hveq], hv2.2⟩
        | cons f2 ts2 =>
          simp only [List.cons.injEq] at hv2
          exact absurd hv2.1 (by decide)
      | cons f1 ts1 =>
        cases t2 with
        | nil =>
          simp only [List.cons.injEq] at hv2
          exact absurd hv2.1 (by decide)
        | cons f2 ts2 =>
          simp only [List.cons.injEq] at hv2
          obtain ⟨hts, hr⟩ := ih (f2 :: ts2) r1 r2 hv2.2.2
          exact ⟨by rw [hkeq, hveq, hts], hr⟩

theorem renderTopEntries_cons_norm (k : String) (cm : ColMap) (t : Schema)
    (r : List Char) :
    renderTopEntries ((k, cm) :: t) ++ rbraceChar :: r =
      quoteChar :: (escChars k.data ++ quoteChar :: ':' :: ' ' ::
        lbraceChar :: (renderColEntries (sortByKey cm) ++ rbraceChar ::
          (match t with
           | [] => rbraceChar :: r
           | e :: ts => ',' :: ' ' :: (renderTopEntries (e :: ts) ++ rbraceChar :: r)))) := by
  cases t with
  | nil => simp [renderTopEntries, renderStr, renderCol, List.append_assoc]
  | cons e ts => simp [renderTopEntries, renderStr, renderCol, List.append_assoc]

theorem renderTopEntries_split :
    ∀ (s1 s2 : Schema) (r1 r2 : List Char),
      renderTopEntries s1 ++ rbraceChar :: r1 =
        renderTopEntries s2 ++ rbraceChar :: r2 →
      (s1.map fun e => (e.1, sortByKey e.2)) =
        (s2.map fun e => (e.1, sortByKey e.2)) ∧ r1 = r2 := by
  intro s1
  induction s1 with
  | nil =>
    intro s2 r1 r2 h
    cases s2 with
    | nil =>
      simp only [renderTopEntries, List.nil_append, List.cons.injEq] at h
      exact ⟨rfl, h.2⟩
    | cons e t =>
      obtain ⟨k2, cm2⟩ := e
      rw [renderTopEntries_cons_norm] at h
      simp only [renderTopEntries, List.nil_append, List.cons.injEq] at h
      exact absurd h.1 (by decide)
  | cons e1 t1 ih =>
    intro s2 r1 r2 h
    obtain ⟨k1, cm1⟩ := e1
    cases s2 with
    | nil =>
      rw [renderTopEntries_cons_norm] at h
      simp only [renderTopEntries, List.nil_append, List.cons.injEq] at h
      exact absurd h.1 (by decide)
    | cons e2 t2 =>
      obtain ⟨k2, cm2⟩ := e2
      rw [renderTopEntries_cons_norm, renderTopEntries_cons_norm] at h
      simp only [List.cons.injEq] at h
      obtain ⟨hk1, hk2⟩ := esc_split _ _ _ _ h.2
      have hkeq : k1 = k2 := by
        cases k1
        cases k2
        simp only [String.data] at hk1
        rw [hk1]
      simp only [List.cons.injEq] at hk2
      obtain ⟨hcm, hrest⟩ := renderColEntries_split _ _ _ _ hk2.2.2.2
      cases t1 with
      | nil =>
        cases t2 with
        | nil =>
          simp only [List.cons.injEq] at hrest
          refine ⟨?_, hrest.2⟩
          simp only [List.map_cons, List.map_nil]
          rw [hkeq, hcm]
        | cons f2 ts2 =>
          simp only [List.cons.injEq] at hrest
          exact absurd hrest.1 (by decide)
      | cons f1 ts1 =>
        cases t2 with
        | nil =>
          simp only [List.cons.injEq] at hrest
          exact absurd hrest.1 (by decide)
        | cons f2 ts2 =>
          simp only [List.cons.injEq] at hrest
          obtain ⟨hts, hr⟩ := ih (f2 :: ts2) r1 r2 hrest.2.2
          refine ⟨?_, hr⟩
          show (k1, sortByKey cm1) :: List.map (fun e => (e.1, sortByKey e.2)) (f1 :: ts1) =
            (k2, sortByKey cm2) :: List.map (fun e => (e.1, sortByKey e.2)) (f2 :: ts2)
          rw [hkeq, hcm, hts]

theorem json_dumps_canon (s1 s2 : Schema) (h : canonSnap s1 = canonSnap s2) :
    json_dumps_sorted s1 = json_dumps_sorted s2 := by
  unfold json_dumps_sorted jsonChars
  rw [renderTop_ext (sortByKey s1) (sortByKey s2) h]

theorem json_dumps_inj (s1 s2 : Schema)
    (h : json_dumps_sorted s1 = json_dumps_sorted s2) :
    canonSnap s1 = canonSnap s2 := by
  have hc : jsonChars s1 = jsonChars s2 := congrArg String.data h
  rw [jsonChars, jsonChars] at hc
  injection hc with h1 h2
  exact (renderTopEntries_split (sortByKey s1) (sortByKey s2) [] [] h2).1

/-! ### The greedy best-match loop -/

theorem foldl_best_spec (g : String → ℚ) (l : List String) :
    ∀ acc : Option String × ℚ,
      (∀ m ∈ l, g m ≤
        (l.foldl (fun acc n => if acc.2 < g n then (some n, g n) else acc) acc).2) ∧
      acc.2 ≤ (l.foldl (fun acc n => if acc.2 < g n then (some n, g n) else acc) acc).2 ∧
      ((l.foldl (fun acc n => if acc.2 < g n then (some n, g n) else acc) acc) = acc ∨
        ∃ m ∈ l,
          (l.foldl (fun acc n => if acc.2 < g n then (some n, g n) else acc) acc) =
            (some m, g m) ∧ acc.2 < g m) := by
  induction l with
  | nil => exact fun acc => ⟨by simp, le_refl _, Or.inl rfl⟩
  | cons n l ih =>
    intro acc
    set acc2 := if acc.2 < g n then (some n, g n) else acc with hacc2
    obtain ⟨ihb, ihm, ihd⟩ := ih acc2
    have hstep : (n :: l).foldl
        (fun acc n => if acc.2 < g n then (some n, g n) else acc) acc =
        l.foldl (fun acc n => if acc.2 < g n then (some n, g n) else acc) acc2 := by
      simp [hacc2]
    have hle1 : acc.2 ≤ acc2.2 := by
      rw [hacc2]
      split
      · exact le_of_lt (by assumption)
      · exact le_refl _
    have hle2 : g n ≤ acc2.2 := by
      rw [hacc2]
      split
      · exact le_refl _
      · exact le_of_not_lt (by assumption)
    rw [hstep]
    refine ⟨?_, le_trans hle1 ihm, ?_⟩
    · intro m hm
      rcases List.mem_cons.mp hm with h | h
      · exact h ▸ le_trans hle2 ihm
      · exact ihb m h
    · rcases ihd with h | ⟨m, hm, hres, hlt⟩
      · rw [h, hacc2]
        by_cases hc : acc.2 < g n
        · exact Or.inr ⟨n, List.mem_cons_self n l, by simp [hacc2, hc], hc⟩
        · exact Or.inl (by simp [hc])
      · exact Or.inr ⟨m, List.mem_cons_of_mem n hm, hres, lt_of_le_of_lt hle1 hlt⟩

theorem bestMatch_eq_foldl (o : String) (added : List String) :
    bestMatch o added =
      added.foldl (fun acc n => if acc.2 < sim o n then (some n, sim o n) else acc)
        (none, 1/2) := rfl

theorem bestMatch_some_spec (o : String) (added : List String) (n : String) (s : ℚ)
    (h : bestMatch o added = (some n, s)) :
    n ∈ added ∧ s = sim o n ∧ 1/2 < s ∧ ∀ m ∈ added, sim o m ≤ s := by
  obtain ⟨hb, hm, hd⟩ := foldl_best_spec (sim o) added (none, 1/2)
  rw [bestMatch_eq_foldl] at h
  rcases hd with hacc | ⟨m, hmem, hres, hlt⟩
  · rw [hacc] at h
    simp at h
  · rw [hres] at h
    injection h with h1 h2
    injection h1 with h1
    subst h1
    subst h2
    refine ⟨hmem, rfl, hlt, fun x hx => ?_⟩
    have hx2 := hb x hx
    rw [hres] at hx2
    exact hx2

theorem bestMatch_none_spec (o : String) (added : List String) (s : ℚ)
    (h : bestMatch o added = (none, s)) : ∀ m ∈ added, sim o m ≤ 1/2 := by
  obtain ⟨hb, hm, hd⟩ := foldl_best_spec (sim o) added (none, 1/2)
  rw [bestMatch_eq_foldl] at h
  rcases hd with hacc | ⟨m, hmem, hres, hlt⟩
  · intro x hx
    have := hb x hx
    rw [hacc] at this
    exact this
  · rw [hres] at h
    exact absurd (congrArg Prod.fst h) (by simp)

/-! ### Structure of the greedy rename matching -/

theorem detect_renamed_tables_mem (removed : List String) :
    ∀ (added : List String) (p : String × String),
      p ∈ detect_renamed_tables removed added →
      p.1 ∈ removed ∧ p.2 ∈ added ∧ 1/2 < sim p.1 p.2 := by
  induction removed with
  | nil => intro added p hp; simp [detect_renamed_tables] at hp
  | cons o rest ih =>
    intro added p hp
    rcases hbm : bestMatch o added with ⟨mo, s⟩
    cases mo with
    | none =>
      rw [detect_renamed_tables, hbm] at hp
      obtain ⟨h1, h2, h3⟩ := ih added p hp
      exact ⟨List.mem_cons_of_mem o h1, h2, h3⟩
    | some n =>
      rw [detect_renamed_tables, hbm] at hp
      rcases List.mem_cons.mp hp with h | h
      · obtain ⟨hmem, hs, hlt, _⟩ := bestMatch_some_spec o added n s hbm
        subst h
        exact ⟨List.mem_cons_self o rest, hmem, hs ▸ hlt⟩
      · obtain ⟨h1, h2, h3⟩ := ih (added.erase n) p h
        exact ⟨List.mem_cons_of_mem o h1, List.mem_of_mem_erase h2, h3⟩

theorem detect_renamed_tables_fst_sublist (removed : List String) :
    ∀ added : List String,
      ((detect_renamed_tables removed added).map Prod.fst).Sublist removed := by
  induction removed with
  | nil => intro added; simp [detect_renamed_tables]
  | cons o rest ih =>
    intro added
    rcases hbm : bestMatch o added with ⟨mo, s⟩
    cases mo with
    | none =>
      rw [detect_renamed_tables, hbm]
      exact (ih added).cons o
    | some n =>
      rw [detect_renamed_tables, hbm]
      simpa using (ih (added.erase n)).cons₂ o

theorem detect_renamed_tables_snd_nodup (removed : List String) :
    ∀ added : List String, added.Nodup →
      ((detect_renamed_tables removed added).map Prod.snd).Nodup := by
  induction removed with
  | nil => intro added _; simp [detect_renamed_tables]
  | cons o rest ih =>
    intro added hnd
    rcases hbm : bestMatch o added with ⟨mo, s⟩
    cases mo with
    | none =>
      rw [detect_renamed_tables, hbm]
      exact ih added hnd
    | some n =>
      rw [detect_renamed_tables, hbm]
      refine List.nodup_cons.mpr ⟨fun hmem => ?_, ih (added.erase n) (hnd.erase n)⟩
      simp only [List.map_cons] at hmem
      rcases List.mem_map.mp hmem with ⟨p, hp, hsnd⟩
      have := (detect_renamed_tables_mem rest (added.erase n) p hp).2.1
      rw [hsnd] at this
      exact (hnd.not_mem_erase) this

theorem detect_renamed_tables_max (removed : List String) :
    ∀ (added : List String), added.Nodup →
      ∀ (pre : List (String × String)) (p : String × String)
        (post : List (String × String)),
        detect_renamed_tables removed added = pre ++ p :: post →
        ∀ m ∈ added, m ∉ pre.map Prod.snd → sim p.1 m ≤ sim p.1 p.2 := by
  induction removed with
  | nil =>
    intro added _ pre p post heq
    rw [detect_renamed_tables] at heq
    cases pre <;> simp at heq
  | cons o rest ih =>
    intro added hnd pre p post heq
    rcases hbm : bestMatch o added with ⟨mo, s⟩
    cases mo with
    | none =>
      rw [detect_renamed_tables, hbm] at heq
      exact ih added hnd pre p post heq
    | some n =>
      rw [detect_renamed_tables, hbm] at heq
      cases pre with
      | nil =>
        simp only [List.nil_append, List.cons.injEq] at heq
        obtain ⟨hp, _⟩ := heq
        subst hp
        intro m hm _
        obtain ⟨_, hs, _, hb⟩ := bestMatch_some_spec o added n s hbm
        show sim o m ≤ sim o n
        exact hs ▸ hb m hm
      | cons q pre2 =>
        simp only [List.cons_append, List.cons.injEq] at heq
        obtain ⟨hq, heq2⟩ := heq
        intro m hm hmpre
        simp only [List.map_cons, List.mem_cons, not_or, ← hq] at hmpre
        obtain ⟨hmn, hmpre2⟩ := hmpre
        exact ih (added.erase n) (hnd.erase n) pre2 p post heq2 m
          ((List.mem_erase_of_ne hmn).mpr hm) hmpre2

theorem detect_renamed_tables_reject (removed : List String) :
    ∀ (added : List String) (o : String),
      (∀ m ∈ added, sim o m ≤ 1/2) →
      ∀ p ∈ detect_renamed_tables removed added, p.1 ≠ o := by
  induction removed with
  | nil => intro added o _ p hp; simp [detect_renamed_tables] at hp
  | cons o2 rest ih =>
    intro added o hb p hp
    rcases hbm : bestMatch o2 added with ⟨mo, s⟩
    cases mo with
    | none =>
      rw [detect_renamed_tables, hbm] at hp
      exact ih added o hb p hp
    | some n =>
      rw [detect_renamed_tables, hbm] at hp
      rcases List.mem_cons.mp hp with h | h
      · subst h
        intro hcontra
        obtain ⟨hmem, hs, hlt, _⟩ := bestMatch_some_spec o2 added n s hbm
        have ho2 : o2 = o := hcontra
        subst ho2
        exact absurd (hs ▸ hlt) (not_lt_of_le (hb n hmem))
      · exact ih (added.erase n) o
          (fun m hm => hb m (List.mem_of_mem_erase hm)) p h

theorem detect_renamed_columns_eq_tables (t : String) (removed : List String) :
    ∀ added : List String,
      detect_renamed_columns t removed added = detect_renamed_tables removed added := by
  induction removed with
  | nil => intro added; rfl
  | cons o rest ih =>
    intro added
    rw [detect_renamed_columns, detect_renamed_tables]
    rcases hbm : bestMatch o added with ⟨mo, s⟩
    cases mo <;> simp [ih]

theorem detect_renamed_tables_customer_id_eval :
    detect_renamed_tables ["customer_id"] ["customerId"] =
      [("customer_id", "customerId")] := by
  rw [detect_renamed_tables, bestMatch_customer_id_eval]
  simp [detect_renamed_tables]

/-! ### Unfolded forms of the diff computations -/

theorem compare_table_schema_eq (d : Bool) (tn : String) (oc nc : ColMap) :
    compare_table_schema d tn oc nc =
      ((setDiff (keyList nc) (keyList oc)).map fun c =>
        { diff_type := DiffType.COLUMN_ADDED, table_name := tn,
          column_name := some c, new_value := alookup c nc }) ++
      ((setDiff (keyList oc) (keyList nc)).map fun c =>
        { diff_type := DiffType.COLUMN_REMOVED, table_name := tn,
          column_name := some c, old_value := alookup c oc }) ++
      ((if d then
          detect_renamed_columns tn (setDiff (keyList oc) (keyList nc))
            (setDiff (keyList nc) (keyList oc))
        else []).map fun p =>
        { diff_type := DiffType.COLUMN_RENAMED, table_name := tn,
          column_name := some p.1, old_value := some p.1,
          new_value := some p.2 }) ++
      ((setInter
          ((keyList oc).filter fun c => decide (c ∉
            (if d then
              detect_renamed_columns tn (setDiff (keyList oc) (keyList nc))
                (setDiff (keyList nc) (keyList oc))
            else []).map Prod.fst))
          ((keyList nc).filter fun c => decide (c ∉
            (if d then
              detect_renamed_columns tn (setDiff (keyList oc) (keyList nc))
                (setDiff (keyList nc) (keyList oc))
            else []).map Prod.snd))).filterMap fun c =>
        if alookup c oc ≠ alookup c nc then
          some { diff_type := DiffType.COLUMN_TYPE_CHANGED, table_name := tn,
                 column_name := some c, old_value := alookup c oc,
                 new_value := alookup c nc }
        else none) := by
  unfold compare_table_schema
  rfl

theorem compute_diff_eq (d : Bool) (o n : Schema) :
    compute_diff d o n =
      ((setDiff (keyList n) (keyList o)).map fun t =>
        { diff_type := DiffType.TABLE_ADDED, table_name := t,
          new_value := some "added" }) ++
      ((setDiff (keyList o) (keyList n)).map fun t =>
        { diff_type := DiffType.TABLE_REMOVED, table_name := t,
          old_value := some "removed" }) ++
      ((if d then
          detect_renamed_tables (setDiff (keyList o) (keyList n))
            (setDiff (keyList n) (keyList o))
        else []).map fun p =>
        { diff_type := DiffType.TABLE_RENAMED, table_name := p.1,
          old_value := some p.1, new_value := some p.2 }) ++
      ((setInter
          ((keyList o).filter fun t => decide (t ∉
            (if d then
              detect_renamed_tables (setDiff (keyList o) (keyList n))
                (setDiff (keyList n) (keyList o))
            else []).map Prod.fst))
          ((keyList n).filter fun t => decide (t ∉
            (if d then
              detect_renamed_tables (setDiff (keyList o) (keyList n))
                (setDiff (keyList n) (keyList o))
            else []).map Prod.snd))).flatMap fun t =>
        compare_table_schema d t ((alookup t o).getD []) ((alookup t n).getD [])) := by
  unfold compute_diff
  rfl

/-- Membership in the common-key list used after rename resolution: the
rename pairs only consume keys from the symmetric difference, so a key
present on both sides always survives to the comparison pass. -/
theorem mem_common_iff (oldk newk : List String) (ren : List (String × String))
    (hf : ∀ p ∈ ren, p.1 ∈ setDiff oldk newk)
    (hs : ∀ p ∈ ren, p.2 ∈ setDiff newk oldk) (x : String) :
    x ∈ setInter (oldk.filter fun c => decide (c ∉ ren.map Prod.fst))
        (newk.filter fun c => decide (c ∉ ren.map Prod.snd)) ↔
      x ∈ oldk ∧ x ∈ newk := by
  rw [mem_setInter]
  simp only [List.mem_filter, decide_eq_true_eq]
  constructor
  · exact fun ⟨⟨h1, _⟩, ⟨h2, _⟩⟩ => ⟨h1, h2⟩
  · rintro ⟨h1, h2⟩
    refine ⟨⟨h1, fun hmem => ?_⟩, ⟨h2, fun hmem => ?_⟩⟩
    · rcases List.mem_map.mp hmem with ⟨p, hp, hpx⟩
      exact ((mem_setDiff _ _ _).mp (hf p hp)).2 (hpx ▸ h2)
    · rcases List.mem_map.mp hmem with ⟨p, hp, hpx⟩
      exact ((mem_setDiff _ _ _).mp (hs p hp)).2 (hpx ▸ h1)

/-- The rename pairs actually produced by the engine satisfy the
side-conditions of `mem_common_iff` (column level, with the
`detect_renames` switch). -/
theorem renamed_cols_mem (d : Bool) (tn : String) (removed added : List String) :
    ∀ p ∈ (if d then detect_renamed_columns tn removed added else []),
      p.1 ∈ removed ∧ p.2 ∈ added := by
  cases d with
  | false => simp
  | true =>
    intro p hp
    rw [if_pos rfl, detect_renamed_columns_eq_tables] at hp
    obtain ⟨h1, h2, _⟩ := detect_renamed_tables_mem removed added p hp
    exact ⟨h1, h2⟩

/-- Table-level version of `renamed_cols_mem`. -/
theorem renamed_tables_mem (d : Bool) (removed added : List String) :
    ∀ p ∈ (if d then detect_renamed_tables removed added else []),
      p.1 ∈ removed ∧ p.2 ∈ added := by
  cases d with
  | false => simp
  | true =>
    intro p hp
    rw [if_pos rfl] at hp
    obtain ⟨h1, h2, _⟩ := detect_renamed_tables_mem removed added p hp
    exact ⟨h1, h2⟩

/-- Every record produced by `_compare_table_schema` carries the table
name it was called with. -/
theorem compare_table_schema_table_name (d : Bool) (tn : String) (oc nc : ColMap) :
    ∀ r ∈ compare_table_schema d tn oc nc, r.table_name = tn := by
  rw [compare_table_schema_eq]
  intro r hr
  rcases List.mem_append.mp hr with hr3 | h
  · rcases List.mem_append.mp hr3 with hr2 | h
    · rcases List.mem_append.mp hr2 with h | h
      · rcases List.mem_map.mp h with ⟨c, _, hc⟩
        exact hc ▸ rfl
      · rcases List.mem_map.mp h with ⟨c, _, hc⟩
        exact hc ▸ rfl
    · rcases List.mem_map.mp h with ⟨p, _, hp⟩
      exact hp ▸ rfl
  · rcases List.mem_filterMap.mp h with ⟨c, _, hc⟩
    by_cases hcond : alookup c oc ≠ alookup c nc
    · rw [if_pos hcond] at hc
      cases hc
      rfl
    · rw [if_neg hcond] at hc
      cases hc

/-- Every record produced by `_compare_table_schema` is a column-level
record. -/
theorem compare_table_schema_kinds (d : Bool) (tn : String) (oc nc : ColMap) :
    ∀ r ∈ compare_table_schema d tn oc nc,
      r.diff_type = DiffType.COLUMN_ADDED ∨ r.diff_type = DiffType.COLUMN_REMOVED ∨
      r.diff_type = DiffType.COLUMN_RENAMED ∨
      r.diff_type = DiffType.COLUMN_TYPE_CHANGED := by
  rw [compare_table_schema_eq]
  intro r hr
  rcases List.mem_append.mp hr with hr3 | h
  · rcases List.mem_append.mp hr3 with hr2 | h
    · rcases List.mem_append.mp hr2 with h | h
      · rcases List.mem_map.mp h with ⟨c, _, hc⟩
        exact Or.inl (hc ▸ rfl)
      · rcases List.mem_map.mp h with ⟨c, _, hc⟩
        exact Or.inr (Or.inl (hc ▸ rfl))
    · rcases List.mem_map.mp h with ⟨p, _, hp⟩
      exact Or.inr (Or.inr (Or.inl (hp ▸ rfl)))
  · rcases List.mem_filterMap.mp h with ⟨c, _, hc⟩
    by_cases hcond : alookup c oc ≠ alookup c nc
    · rw [if_pos hcond] at hc
      cases hc
      exact Or.inr (Or.inr (Or.inr rfl))
    · rw [if_neg hcond] at hc
      cases hc

/-! ### Membership characterizations for the symmetry claim -/

theorem mem_commonT_iff (d : Bool) (A B : Schema) (x : String) :
    x ∈ setInter
      ((keyList A).filter fun y => decide (y ∉
        (if d then
          detect_renamed_tables (setDiff (keyList A) (keyList B))
            (setDiff (keyList B) (keyList A))
        else []).map Prod.fst))
      ((keyList B).filter fun y => decide (y ∉
        (if d then
          detect_renamed_tables (setDiff (keyList A) (keyList B))
            (setDiff (keyList B) (keyList A))
        else []).map Prod.snd)) ↔
    x ∈ keyList A ∧ x ∈ keyList B :=
  mem_common_iff _ _ _
    (fun p hp => (renamed_tables_mem d _ _ p hp).1)
    (fun p hp => (renamed_tables_mem d _ _ p hp).2) x

theorem mem_commonC_iff (d : Bool) (tn : String) (oc nc : ColMap) (x : String) :
    x ∈ setInter
      ((keyList oc).filter fun y => decide (y ∉
        (if d then
          detect_renamed_columns tn (setDiff (keyList oc) (keyList nc))
            (setDiff (keyList nc) (keyList oc))
        else []).map Prod.fst))
      ((keyList nc).filter fun y => decide (y ∉
        (if d then
          detect_renamed_columns tn (setDiff (keyList oc) (keyList nc))
            (setDiff (keyList nc) (keyList oc))
        else []).map Prod.snd)) ↔
    x ∈ keyList oc ∧ x ∈ keyList nc :=
  mem_common_iff _ _ _
    (fun p hp => (renamed_cols_mem d tn _ _ p hp).1)
    (fun p hp => (renamed_cols_mem d tn _ _ p hp).2) x

theorem table_added_mem_iff (d : Bool) (A B : Schema) (t : String) :
    (∃ r ∈ compute_diff d A B,
      r.diff_type = DiffType.TABLE_ADDED ∧ r.table_name = t) ↔
    t ∈ keyList B ∧ t ∉ keyList A := by
  rw [compute_diff_eq]
  constructor
  · rintro ⟨r, hr, hkind, htab⟩
    rcases List.mem_append.mp hr with hr3 | h
    · rcases List.mem_append.mp hr3 with hr2 | h
      · rcases List.mem_append.mp hr2 with h | h
        · rcases List.mem_map.mp h with ⟨a, ha, hra⟩
          rw [← hra] at htab
          exact htab ▸ (mem_setDiff a _ _).mp ha
        · rcases List.mem_map.mp h with ⟨a, _, hra⟩
          rw [← hra] at hkind
          simp at hkind
      · rcases List.mem_map.mp h with ⟨p, _, hrp⟩
        rw [← hrp] at hkind
        simp at hkind
    · rcases List.mem_flatMap.mp h with ⟨x, _, hrx⟩
      rcases compare_table_schema_kinds d x _ _ r hrx with h4 | h4 | h4 | h4 <;>
        rw [h4] at hkind <;> simp at hkind
  · rintro ⟨h1, h2⟩
    refine ⟨⟨DiffType.TABLE_ADDED, t, none, none, some "added"⟩, ?_, rfl, rfl⟩
    exact List.mem_append.mpr (Or.inl (List.mem_append.mpr (Or.inl
      (List.mem_append.mpr (Or.inl (List.mem_map.mpr
        ⟨t, (mem_setDiff t _ _).mpr ⟨h1, h2⟩, rfl⟩))))))

theorem table_removed_mem_iff (d : Bool) (A B : Schema) (t : String) :
    (∃ r ∈ compute_diff d A B,
      r.diff_type = DiffType.TABLE_REMOVED ∧ r.table_name = t) ↔
    t ∈ keyList A ∧ t ∉ keyList B := by
  rw [compute_diff_eq]
  constructor
  · rintro ⟨r, hr, hkind, htab⟩
    rcases List.mem_append.mp hr with hr3 | h
    · rcases List.mem_append.mp hr3 with hr2 | h
      · rcases List.mem_append.mp hr2 with h | h
        · rcases List.mem_map.mp h with ⟨a, _, hra⟩
          rw [← hra] at hkind
          simp at hkind
        · rcases List.mem_map.mp h with ⟨a, ha, hra⟩
          rw [← hra] at htab
          exact htab ▸ (mem_setDiff a _ _).mp ha
      · rcases List.mem_map.mp h with ⟨p, _, hrp⟩
        rw [← hrp] at hkind
        simp at hkind
    · rcases List.mem_flatMap.mp h with ⟨x, _, hrx⟩
      rcases compare_table_schema_kinds d x _ _ r hrx with h4 | h4 | h4 | h4 <;>
        rw [h4] at hkind <;> simp at hkind
  · rintro ⟨h1, h2⟩
    refine ⟨⟨DiffType.TABLE_REMOVED, t, none, some "removed", none⟩, ?_, rfl, rfl⟩
    exact List.mem_append.mpr (Or.inl (List.mem_append.mpr (Or.inl
      (List.mem_append.mpr (Or.inr (List.mem_map.mpr
        ⟨t, (mem_setDiff t _ _).mpr ⟨h1, h2⟩, rfl⟩))))))

theorem column_added_mem_iff (d : Bool) (A B : Schema) (t c : String) :
    (∃ r ∈ compute_diff d A B, r.diff_type = DiffType.COLUMN_ADDED ∧
      r.table_name = t ∧ r.column_name = some c) ↔
    t ∈ keyList A ∧ t ∈ keyList B ∧
      c ∈ keyList ((alookup t B).getD []) ∧
      c ∉ keyList ((alookup t A).getD []) := by
  rw [compute_diff_eq]
  constructor
  · rintro ⟨r, hr, hkind, htab, hcol⟩
    rcases List.mem_append.mp hr with hr3 | h
    · exfalso
      rcases List.mem_append.mp hr3 with hr2 | h
      · rcases List.mem_append.mp hr2 with h | h <;>
          (rcases List.mem_map.mp h with ⟨a, _, hra⟩; rw [← hra] at hkind;
            simp at hkind)
      · rcases List.mem_map.mp h with ⟨p, _, hrp⟩
        rw [← hrp] at hkind
        simp at hkind
    · rcases List.mem_flatMap.mp h with ⟨x, hx, hrx⟩
      have hxt : x = t := by
        have hname := compare_table_schema_table_name d x _ _ r hrx
        rw [← hname, htab]
      subst hxt
      obtain ⟨hA, hB⟩ := (mem_commonT_iff d A B x).mp hx
      refine ⟨hA, hB, ?_⟩
      rw [compare_table_schema_eq] at hrx
      rcases List.mem_append.mp hrx with hr3 | h
      · rcases List.mem_append.mp hr3 with hr2 | h
        · rcases List.mem_append.mp hr2 with h | h
          · rcases List.mem_map.mp h with ⟨a, ha, hra⟩
            rw [← hra] at hcol
            simp only [Option.some.injEq] at hcol
            subst hcol
            exact (mem_setDiff a _ _).mp ha
          · rcases List.mem_map.mp h with ⟨a, _, hra⟩
            rw [← hra] at hkind
            simp at hkind
        · rcases List.mem_map.mp h with ⟨p, _, hrp⟩
          rw [← hrp] at hkind
          simp at hkind
      · exfalso
        rcases List.mem_filterMap.mp h with ⟨a, _, hga⟩
        by_cases hcond : alookup a ((alookup x A).getD []) ≠
            alookup a ((alookup x B).getD [])
        · rw [if_pos hcond] at hga
          cases hga
          simp at hkind
        · rw [if_neg hcond] at hga
          cases hga
  · rintro ⟨h1, h2, h3, h4⟩
    refine ⟨⟨DiffType.COLUMN_ADDED, t, some c, none,
      alookup c ((alookup t B).getD [])⟩, ?_, rfl, rfl, rfl⟩
    refine List.mem_append.mpr (Or.inr (List.mem_flatMap.mpr
      ⟨t, (mem_commonT_iff d A B t).mpr ⟨h1, h2⟩, ?_⟩))
    rw [compare_table_schema_eq]
    exact List.mem_append.mpr (Or.inl (List.mem_append.mpr (Or.inl
      (List.mem_append.mpr (Or.inl (List.mem_map.mpr
        ⟨c, (mem_setDiff c _ _).mpr ⟨h3, h4⟩, rfl⟩))))))

theorem column_removed_mem_iff (d : Bool) (A B : Schema) (t c : String) :
    (∃ r ∈ compute_diff d A B, r.diff_type = DiffType.COLUMN_REMOVED ∧
      r.table_name = t ∧ r.column_name = some c) ↔
    t ∈ keyList A ∧ t ∈ keyList B ∧
      c ∈ keyList ((alookup t A).getD []) ∧
      c ∉ keyList ((alookup t B).getD []) := by
  rw [compute_diff_eq]
  constructor
  · rintro ⟨r, hr, hkind, htab, hcol⟩
    rcases List.mem_append.mp hr with hr3 | h
    · exfalso
      rcases List.mem_append.mp hr3 with hr2 | h
      · rcases List.mem_append.mp hr2 with h | h <;>
          (rcases List.mem_map.mp h with ⟨a, _, hra⟩; rw [← hra] at hkind;
            simp at hkind)
      · rcases List.mem_map.mp h with ⟨p, _, hrp⟩
        rw [← hrp] at hkind
        simp at hkind
    · rcases List.mem_flatMap.mp h with ⟨x, hx, hrx⟩
      have hxt : x = t := by
        have hname := compare_table_schema_table_name d x _ _ r hrx
        rw [← hname, htab]
      subst hxt
      obtain ⟨hA, hB⟩ := (mem_commonT_iff d A B x).mp hx
      refine ⟨hA, hB, ?_⟩
      rw [compare_table_schema_eq] at hrx
      rcases List.mem_append.mp hrx with hr3 | h
      · rcases List.mem_append.mp hr3 with hr2 | h
        · rcases List.mem_append.mp hr2 with h | h
          · rcases List.mem_map.mp h with ⟨a, _, hra⟩
            rw [← hra] at hkind
            simp at hkind
          · rcases List.mem_map.mp h with ⟨a, ha, hra⟩
            rw [← hra] at hcol
            simp only [Option.some.injEq] at hcol
            subst hcol
            exact (mem_setDiff a _ _).mp ha
        · rcases List.mem_map.mp h with ⟨p, _, hrp⟩
          rw [← hrp] at hkind
          simp at hkind
      · exfalso
        rcases List.mem_filterMap.mp h with ⟨a, _, hga⟩
        by_cases hcond : alookup a ((alookup x A).getD []) ≠
            alookup a ((alookup x B).getD [])
        · rw [if_pos hcond] at hga
          cases hga
          simp at hkind
        · rw [if_neg hcond] at hga
          cases hga
  · rintro ⟨h1, h2, h3, h4⟩
    refine ⟨⟨DiffType.COLUMN_REMOVED, t, some c,
      alookup c ((alookup t A).getD []), none⟩, ?_, rfl, rfl, rfl⟩
    refine List.mem_append.mpr (Or.inr (List.mem_flatMap.mpr
      ⟨t, (mem_commonT_iff d A B t).mpr ⟨h1, h2⟩, ?_⟩))
    rw [compare_table_schema_eq]
    exact List.mem_append.mpr (Or.inl (List.mem_append.mpr (Or.inl
      (List.mem_append.mpr (Or.inr (List.mem_map.mpr
        ⟨c, (mem_setDiff c _ _).mpr ⟨h3, h4⟩, rfl⟩))))))

theorem compare_table_ne_nil_iff (d : Bool) (tn : String) (oc nc : ColMap) :
    compare_table_schema d tn oc nc ≠ [] ↔
      (∃ x, x ∈ keyList nc ∧ x ∉ keyList oc) ∨
      (∃ x, x ∈ keyList oc ∧ x ∉ keyList nc) ∨
      (∃ x, x ∈ keyList oc ∧ x ∈ keyList nc ∧ alookup x oc ≠ alookup x nc) := by
  constructor
  · intro hne
    obtain ⟨r, hr⟩ := List.exists_mem_of_ne_nil _ hne
    rw [compare_table_schema_eq] at hr
    rcases List.mem_append.mp hr with hr3 | h
    · rcases List.mem_append.mp hr3 with hr2 | h
      · rcases List.mem_append.mp hr2 with h | h
        · rcases List.mem_map.mp h with ⟨a, ha, _⟩
          exact Or.inl ⟨a, (mem_setDiff a _ _).mp ha⟩
        · rcases List.mem_map.mp h with ⟨a, ha, _⟩
          exact Or.inr (Or.inl ⟨a, (mem_setDiff a _ _).mp ha⟩)
      · rcases List.mem_map.mp h with ⟨p, hp, _⟩
        exact Or.inr (Or.inl ⟨p.1,
          (mem_setDiff p.1 _ _).mp (renamed_cols_mem d tn _ _ p hp).1⟩)
    · rcases List.mem_filterMap.mp h with ⟨a, ha, hga⟩
      by_cases hcond : alookup a oc ≠ alookup a nc
      · obtain ⟨haO, haN⟩ := (mem_commonC_iff d tn oc nc a).mp ha
        exact Or.inr (Or.inr ⟨a, haO, haN, hcond⟩)
      · rw [if_neg hcond] at hga
        cases hga
  · intro h
    rcases h with ⟨x, h1, h2⟩ | ⟨x, h1, h2⟩ | ⟨x, h1, h2, h3⟩
    · refine List.ne_nil_of_mem
        (a := ⟨DiffType.COLUMN_ADDED, tn, some x, none, alookup x nc⟩) ?_
      rw [compare_table_schema_eq]
      exact List.mem_append.mpr (Or.inl (List.mem_append.mpr (Or.inl
        (List.mem_append.mpr (Or.inl (List.mem_map.mpr
          ⟨x, (mem_setDiff x _ _).mpr ⟨h1, h2⟩, rfl⟩))))))
    · refine List.ne_nil_of_mem
        (a := ⟨DiffType.COLUMN_REMOVED, tn, some x, alookup x oc, none⟩) ?_
      rw [compare_table_schema_eq]
      exact List.mem_append.mpr (Or.inl (List.mem_append.mpr (Or.inl
        (List.mem_append.mpr (Or.inr (List.mem_map.mpr
          ⟨x, (mem_setDiff x _ _).mpr ⟨h1, h2⟩, rfl⟩))))))
    · refine List.ne_nil_of_mem
        (a := ⟨DiffType.COLUMN_TYPE_CHANGED, tn, some x, alookup x oc,
          alookup x nc⟩) ?_
      rw [compare_table_schema_eq]
      exact List.mem_append.mpr (Or.inr (List.mem_filterMap.mpr
        ⟨x, (mem_commonC_iff d tn oc nc x).mpr ⟨h1, h2⟩, by rw [if_pos h3]⟩))

theorem affected_table_iff (d : Bool) (A B : Schema) (t : String) :
    (∃ r ∈ compute_diff d A B, r.table_name = t) ↔
      (t ∈ keyList A ∧ t ∉ keyList B) ∨ (t ∈ keyList B ∧ t ∉ keyList A) ∨
      (t ∈ keyList A ∧ t ∈ keyList B ∧
        compare_table_schema d t ((alookup t A).getD [])
          ((alookup t B).getD []) ≠ []) := by
  constructor
  · rintro ⟨r, hr, htab⟩
    rw [compute_diff_eq] at hr
    rcases List.mem_append.mp hr with hr3 | h
    · rcases List.mem_append.mp hr3 with hr2 | h
      · rcases List.mem_append.mp hr2 with h | h
        · rcases List.mem_map.mp h with ⟨a, ha, hra⟩
          rw [← hra] at htab
          exact Or.inr (Or.inl (htab ▸ (mem_setDiff a _ _).mp ha))
        · rcases List.mem_map.mp h with ⟨a, ha, hra⟩
          rw [← hra] at htab
          exact Or.inl (htab ▸ (mem_setDiff a _ _).mp ha)
      · rcases List.mem_map.mp h with ⟨p, hp, hrp⟩
        rw [← hrp] at htab
        exact Or.inl (htab ▸ (mem_setDiff p.1 _ _).mp
          (renamed_tables_mem d _ _ p hp).1)
    · rcases List.mem_flatMap.mp h with ⟨x, hx, hrx⟩
      have hxt : x = t := by
        have hname := compare_table_schema_table_name d x _ _ r hrx
        rw [← hname, htab]
      subst hxt
      obtain ⟨hA, hB⟩ := (mem_commonT_iff d A B x).mp hx
      exact Or.inr (Or.inr ⟨hA, hB, List.ne_nil_of_mem hrx⟩)
  · rintro (⟨h1, h2⟩ | ⟨h1, h2⟩ | ⟨h1, h2, h3⟩)
    · refine ⟨⟨DiffType.TABLE_REMOVED, t, none, some "removed", none⟩, ?_, rfl⟩
      rw [compute_diff_eq]
      exact List.mem_append.mpr (Or.inl (List.mem_append.mpr (Or.inl
        (List.mem_append.mpr (Or.inr (List.mem_map.mpr
          ⟨t, (mem_setDiff t _ _).mpr ⟨h1, h2⟩, rfl⟩))))))
    · refine ⟨⟨DiffType.TABLE_ADDED, t, none, none, some "added"⟩, ?_, rfl⟩
      rw [compute_diff_eq]
      exact List.mem_append.mpr (Or.inl (List.mem_append.mpr (Or.inl
        (List.mem_append.mpr (Or.inl (List.mem_map.mpr
          ⟨t, (mem_setDiff t _ _).mpr ⟨h1, h2⟩, rfl⟩))))))
    · obtain ⟨r, hr⟩ := List.exists_mem_of_ne_nil _ h3
      refine ⟨r, ?_, compare_table_schema_table_name d t _ _ r hr⟩
      rw [compute_diff_eq]
      exact List.mem_append.mpr (Or.inr (List.mem_flatMap.mpr
        ⟨t, (mem_commonT_iff d A B t).mpr ⟨h1, h2⟩, hr⟩))

theorem affected_column_iff (d : Bool) (A B : Schema) (t c : String) :
    (∃ r ∈ compute_diff d A B, r.table_name = t ∧ r.column_name = some c) ↔
      t ∈ keyList A ∧ t ∈ keyList B ∧
        ((c ∈ keyList ((alookup t B).getD []) ∧
            c ∉ keyList ((alookup t A).getD [])) ∨
         (c ∈ keyList ((alookup t A).getD []) ∧
            c ∉ keyList ((alookup t B).getD [])) ∨
         (c ∈ keyList ((alookup t A).getD []) ∧
            c ∈ keyList ((alookup t B).getD []) ∧
            alookup c ((alookup t A).getD []) ≠
              alookup c ((alookup t B).getD []))) := by
  constructor
  · rintro ⟨r, hr, htab, hcol⟩
    rw [compute_diff_eq] at hr
    rcases List.mem_append.mp hr with hr3 | h
    · exfalso
      rcases List.mem_append.mp hr3 with hr2 | h
      · rcases List.mem_append.mp hr2 with h | h <;>
          (rcases List.mem_map.mp h with ⟨a, _, hra⟩; rw [← hra] at hcol;
            simp at hcol)
      · rcases List.mem_map.mp h with ⟨p, _, hrp⟩
        rw [← hrp] at hcol
        simp at hcol
    · rcases List.mem_flatMap.mp h with ⟨x, hx, hrx⟩
      have hxt : x = t := by
        have hname := compare_table_schema_table_name d x _ _ r hrx
        rw [← hname, htab]
      subst hxt
      obtain ⟨hA, hB⟩ := (mem_commonT_iff d A B x).mp hx
      refine ⟨hA, hB, ?_⟩
      rw [compare_table_schema_eq] at hrx
      rcases List.mem_append.mp hrx with hr3 | h
      · rcases List.mem_append.mp hr3 with hr2 | h
        · rcases List.mem_append.mp hr2 with h | h
          · rcases List.mem_map.mp h with ⟨a, ha, hra⟩
            rw [← hra] at hcol
            simp only [Option.some.injEq] at hcol
            subst hcol
            exact Or.inl ((mem_setDiff a _ _).mp ha)
          · rcases List.mem_map.mp h with ⟨a, ha, hra⟩
            rw [← hra] at hcol
            simp only [Option.some.injEq] at hcol
            subst hcol
            exact Or.inr (Or.inl ((mem_setDiff a _ _).mp ha))
        · rcases List.mem_map.mp h with ⟨p, hp, hrp⟩
          rw [← hrp] at hcol
          simp only [Option.some.injEq] at hcol
          have hp1 := (mem_setDiff p.1 _ _).mp (renamed_cols_mem d x _ _ p hp).1
          exact Or.inr (Or.inl (hcol ▸ hp1))
      · rcases List.mem_filterMap.mp h with ⟨a, ha, hga⟩
        by_cases hcond : alookup a ((alookup x A).getD []) ≠
            alookup a ((alookup x B).getD [])
        · rw [if_pos hcond] at hga
          cases hga
          simp only [Option.some.injEq] at hcol
          subst hcol
          obtain ⟨haO, haN⟩ := (mem_commonC_iff d x _ _ a).mp ha
          exact Or.inr (Or.inr ⟨haO, haN, hcond⟩)
        · rw [if_neg hcond] at hga
          cases hga
  · rintro ⟨h1, h2, hcase⟩
    have hcommon : t ∈ setInter
        ((keyList A).filter fun y => decide (y ∉
          (if d then
            detect_renamed_tables (setDiff (keyList A) (keyList B))
              (setDiff (keyList B) (keyList A))
          else []).map Prod.fst))
        ((keyList B).filter fun y => decide (y ∉
          (if d then
            detect_renamed_tables (setDiff (keyList A) (keyList B))
              (setDiff (keyList B) (keyList A))
          else []).map Prod.snd)) :=
      (mem_commonT_iff d A B t).mpr ⟨h1, h2⟩
    rcases hcase with ⟨h3, h4⟩ | ⟨h3, h4⟩ | ⟨h3, h4, h5⟩
    · refine ⟨⟨DiffType.COLUMN_ADDED, t, some c, none,
        alookup c ((alookup t B).getD [])⟩, ?_, rfl, rfl⟩
      rw [compute_diff_eq]
      refine List.mem_append.mpr (Or.inr (List.mem_flatMap.mpr
        ⟨t, hcommon, ?_⟩))
      rw [compare_table_schema_eq]
      exact List.mem_append.mpr (Or.inl (List.mem_append.mpr (Or.inl
        (List.mem_append.mpr (Or.inl (List.mem_map.mpr
          ⟨c, (mem_setDiff c _ _).mpr ⟨h3, h4⟩, rfl⟩))))))
    · refine ⟨⟨DiffType.COLUMN_REMOVED, t, some c,
        alookup c ((alookup t A).getD []), none⟩, ?_, rfl, rfl⟩
      rw [compute_diff_eq]
      refine List.mem_append.mpr (Or.inr (List.mem_flatMap.mpr
        ⟨t, hcommon, ?_⟩))
      rw [compare_table_schema_eq]
      exact List.mem_append.mpr (Or.inl (List.mem_append.mpr (Or.inl
        (List.mem_append.mpr (Or.inr (List.mem_map.mpr
          ⟨c, (mem_setDiff c _ _).mpr ⟨h3, h4⟩, rfl⟩))))))
    · refine ⟨⟨DiffType.COLUMN_TYPE_CHANGED, t, some c,
        alookup c ((alookup t A).getD []),
        alookup c ((alookup t B).getD [])⟩, ?_, rfl, rfl⟩
      rw [compute_diff_eq]
      refine List.mem_append.mpr (Or.inr (List.mem_flatMap.mpr
        ⟨t, hcommon, ?_⟩))
      rw [compare_table_schema_eq]
      exact List.mem_append.mpr (Or.inr (List.mem_filterMap.mpr
        ⟨c, (mem_commonC_iff d t _ _ c).mpr ⟨h3, h4⟩, by rw [if_pos h5]⟩))

/-! ### Claim theorems -/

/-- C3: diff idempotence — for every snapshot `S` and either value of
`detect_renames`, `compute_diff(S, S)` returns the empty list. -/
theorem diff_idempotent (d : Bool) (s : Schema) : compute_diff d s s = [] := by
  unfold compute_diff
  simp [setDiff_self, setInter_self, detect_renamed_tables_nil,
    compare_table_schema_self]

/-- C4: a monitor cycle whose capture fails with a connectivity error
leaves the stored snapshot and stored hash unchanged, does not invoke the
callback, and does not escape the loop: the cycle is a total transition
and the remaining cycles run exactly as they would from the same state. -/
theorem cycle_connectivity_error_is_noop (d : Bool) (msg : String)
    (st : MonitorState) (rest : List CaptureResult) :
    check_schema d (CaptureResult.connectivity_error msg) st = (st, false) ∧
    run_cycles d (CaptureResult.connectivity_error msg :: rest) st =
      ((run_cycles d rest st).1, false :: (run_cycles d rest st).2) := by
  constructor
  · rfl
  · simp [run_cycles, check_schema]

/-- C5 counterexample: `get_current_schema` returns a shallow copy, so
mutating a nested column mapping reached through the returned mapping
changes the monitor's stored snapshot — the claim that the stored
snapshot is left unchanged fails. -/
theorem get_current_schema_nested_mutation_leaks :
    snapContent
      (heapWrite (fun a => if a = 0 then [("id", "INTEGER")] else [])
        ((alookup "customers" (get_current_schema [("customers", 0)])).getD 999)
        "id" "TEXT")
      [("customers", 0)] ≠
    snapContent (fun a => if a = 0 then [("id", "INTEGER")] else [])
      [("customers", 0)] := by
  decide

/-- C5 amended: `get_current_schema` returns a fresh top-level mapping
with the same content, whose per-table column dicts are the same heap
objects as the stored snapshot's (a shallow copy); consequently a nested
write through the returned mapping is visible in the stored snapshot. -/
theorem get_current_schema_shallow_copy (h : ColHeap) (stored : TopDict)
    (t : String) (addr : Nat) (c v : String) :
    snapContent h (get_current_schema stored) = snapContent h stored ∧
    ((t, addr) ∈ stored → (t, addr) ∈ get_current_schema stored) ∧
    ((t, addr) ∈ get_current_schema stored →
      (t, dictSet c v (h addr)) ∈ snapContent (heapWrite h addr c v) stored) := by
  refine ⟨rfl, id, fun hm => ?_⟩
  exact List.mem_map.mpr ⟨(t, addr), hm, by simp [heapWrite]⟩

/-- Witness for C5 amended at a concrete heap and stored snapshot. -/
theorem get_current_schema_shallow_copy_witness :
    ("customers", dictSet "id" "TEXT" [("id", "INTEGER")]) ∈
      snapContent (heapWrite (fun _ => [("id", "INTEGER")]) 0 "id" "TEXT")
        [("customers", 0)] :=
  (get_current_schema_shallow_copy (fun _ => [("id", "INTEGER")])
    [("customers", 0)] "customers" 0 "id" "TEXT").2.2 (by decide)

/-- C1 (code bug): with rename detection on, for the removed column
`customer_id` and added column `customerId` the heuristic accepts the
match, yet `compute_diff` still returns the `column_added` and
`column_removed` records alongside the `column_renamed` record — the
add/remove records are appended before rename detection and never
retracted, contradicting the spec's in-place-of invariant. -/
theorem rename_emitted_alongside_add_remove :
    compute_diff true [("customers", [("customer_id", "INTEGER")])]
      [("customers", [("customerId", "INTEGER")])] =
    [{ diff_type := DiffType.COLUMN_ADDED, table_name := "customers",
       column_name := some "customerId", new_value := some "INTEGER" },
     { diff_type := DiffType.COLUMN_REMOVED, table_name := "customers",
       column_name := some "customer_id", old_value := some "INTEGER" },
     { diff_type := DiffType.COLUMN_RENAMED, table_name := "customers",
       column_name := some "customer_id", old_value := some "customer_id",
       new_value := some "customerId" }] := by
  simp [compute_diff, compare_table_schema, keyList, setDiff, setInter, alookup,
    detect_renamed_columns_customer_id_eval, detect_renamed_tables]

/-- C10: `to_dict` serializes `old_value`/`new_value` to `None` exactly
when the stored value is falsy (absent or the empty string), and to the
value's string form when truthy. -/
theorem to_dict_falsy_values (d : SchemaDiff) :
    (d.to_dict.old_value = none ↔ (d.old_value = none ∨ d.old_value = some "")) ∧
    (∀ v, d.old_value = some v → v ≠ "" → d.to_dict.old_value = some (pyStr v)) ∧
    (d.to_dict.new_value = none ↔ (d.new_value = none ∨ d.new_value = some "")) ∧
    (∀ v, d.new_value = some v → v ≠ "" → d.to_dict.new_value = some (pyStr v)) := by
  obtain ⟨dt, tn, cn, ov, nv⟩ := d
  refine ⟨?_, ?_, ?_, ?_⟩
  · cases ov with
    | none => simp [SchemaDiff.to_dict]
    | some v =>
      by_cases hv : v = "" <;> simp [SchemaDiff.to_dict, hv]
  · intro v hv hne
    subst hv
    simp [SchemaDiff.to_dict, hne]
  · cases nv with
    | none => simp [SchemaDiff.to_dict]
    | some v =>
      by_cases hv : v = "" <;> simp [SchemaDiff.to_dict, hv]
  · intro v hv hne
    subst hv
    simp [SchemaDiff.to_dict, hne]

/-- Witness for C10: a record whose old type descriptor is the empty
string serializes it as `None`, while a truthy new value is kept. -/
theorem to_dict_falsy_values_witness :
    ({ diff_type := DiffType.COLUMN_TYPE_CHANGED, table_name := "t",
       column_name := some "c", old_value := some "",
       new_value := some "TEXT" } : SchemaDiff).to_dict.old_value = none ∧
    ({ diff_type := DiffType.COLUMN_TYPE_CHANGED, table_name := "t",
       column_name := some "c", old_value := some "",
       new_value := some "TEXT" } : SchemaDiff).to_dict.new_value =
      some (pyStr "TEXT") := by
  have h := to_dict_falsy_values
    { diff_type := DiffType.COLUMN_TYPE_CHANGED, table_name := "t",
      column_name := some "c", old_value := some "", new_value := some "TEXT" }
  exact ⟨h.1.mpr (Or.inr rfl), h.2.2.2 "TEXT" rfl (by decide)⟩

/-- C6: the similarity score used by the rename heuristic is
case-insensitive (it depends only on the lowercased inputs), lands in
`[0, 1]`, follows the equal / substring / character-overlap case analysis
of the spec, and on the pair `"customer_id"` / `"customerId"` strictly
exceeds `0.5`. -/
theorem similarity_score_spec :
    (∀ a b : String, 0 ≤ sim a b ∧ sim a b ≤ 1) ∧
    (∀ a b a2 b2 : String, pyLower a = pyLower a2 → pyLower b = pyLower b2 →
      sim a b = sim a2 b2) ∧
    (∀ a b : String, pyLower a = pyLower b → sim a b = 1) ∧
    (∀ a b : String, pyLower a ≠ pyLower b →
      (subIn (pyLower a).data (pyLower b).data ||
        subIn (pyLower b).data (pyLower a).data) = true →
      sim a b = 7/10) ∧
    (∀ a b : String, pyLower a ≠ pyLower b →
      (subIn (pyLower a).data (pyLower b).data ||
        subIn (pyLower b).data (pyLower a).data) = false →
      ((pyLower a).data.toFinset ∩ (pyLower b).data.toFinset).card ≠ 0 →
      sim a b = ((pyLower a).data.toFinset ∩ (pyLower b).data.toFinset).card /
        ((max (pyLower a).length (pyLower b).length : ℕ) : ℚ)) ∧
    (∀ a b : String, pyLower a ≠ pyLower b →
      (subIn (pyLower a).data (pyLower b).data ||
        subIn (pyLower b).data (pyLower a).data) = false →
      (pyLower a).data.toFinset ∩ (pyLower b).data.toFinset = ∅ →
      sim a b = 0) ∧
    1/2 < sim "customer_id" "customerId" := by
  refine ⟨fun a b => similarity_score_range _ _,
    fun a b a2 b2 h1 h2 => by rw [sim, h1, h2]; rfl,
    fun a b h => by rw [sim, similarity_score, if_pos h],
    fun a b h h2 => by rw [sim, similarity_score]; simp [h, h2],
    fun a b h h2 h3 => by rw [sim, similarity_score]; simp [h, h2, h3],
    fun a b h h2 h3 => by rw [sim, similarity_score]; simp [h, h2, h3],
    ?_⟩
  have hl1 : pyLower "customer_id" = "customer_id" := by decide
  have hl2 : pyLower "customerId" = "customerid" := by decide
  rw [sim, hl1, hl2, sim_customer_id_eval]
  norm_num

/-- Witness for C6 at concrete inputs. -/
theorem similarity_score_spec_witness :
    sim "ID" "id" = 1 ∧ sim "order" "orders" = 7/10 ∧ sim "ab" "xy" = 0 := by
  refine ⟨similarity_score_spec.2.2.1 "ID" "id" (by decide),
    similarity_score_spec.2.2.2.1 "order" "orders" (by decide) (by decide),
    similarity_score_spec.2.2.2.2.2.1 "ab" "xy" (by decide) (by decide) (by decide)⟩

/-- C7: rename matching policy — every accepted pair joins a removed name
with a still-available added name whose (case-insensitive) similarity
strictly exceeds the 0.5 threshold and is maximal among the added names
not yet consumed by earlier matches; each removed name and each added
name is used at most once; a removed name all of whose candidate scores
are at most 0.5 is never matched; and column matching follows the same
policy as table matching. -/
theorem rename_matching_policy (removed added : List String) :
    (∀ p ∈ detect_renamed_tables removed added,
      p.1 ∈ removed ∧ p.2 ∈ added ∧ 1/2 < sim p.1 p.2) ∧
    (removed.Nodup → ((detect_renamed_tables removed added).map Prod.fst).Nodup) ∧
    (added.Nodup → ((detect_renamed_tables removed added).map Prod.snd).Nodup) ∧
    (added.Nodup →
      ∀ (pre : List (String × String)) (p : String × String)
        (post : List (String × String)),
        detect_renamed_tables removed added = pre ++ p :: post →
        ∀ m ∈ added, m ∉ pre.map Prod.snd → sim p.1 m ≤ sim p.1 p.2) ∧
    (∀ o, (∀ m ∈ added, sim o m ≤ 1/2) →
      ∀ p ∈ detect_renamed_tables removed added, p.1 ≠ o) ∧
    (∀ t, detect_renamed_columns t removed added =
      detect_renamed_tables removed added) := by
  exact ⟨detect_renamed_tables_mem removed added,
    fun hnd => (detect_renamed_tables_fst_sublist removed added).nodup hnd,
    detect_renamed_tables_snd_nodup removed added,
    fun hnd => detect_renamed_tables_max removed added hnd,
    detect_renamed_tables_reject removed added,
    fun t => detect_renamed_columns_eq_tables t removed added⟩

/-- Witness for C7 on the `customer_id` / `customerId` pair. -/
theorem rename_matching_policy_witness :
    1/2 < sim "customer_id" "customerId" ∧
    ((detect_renamed_tables ["customer_id"] ["customerId"]).map Prod.fst).Nodup ∧
    sim ("customer_id", "customerId").1 "customerId" ≤
      sim ("customer_id", "customerId").1 ("customer_id", "customerId").2 := by
  have h := rename_matching_policy ["customer_id"] ["customerId"]
  have hmem : ("customer_id", "customerId") ∈
      detect_renamed_tables ["customer_id"] ["customerId"] := by
    rw [detect_renamed_tables_customer_id_eval]
    exact List.mem_singleton.mpr rfl
  refine ⟨(h.1 ("customer_id", "customerId") hmem).2.2, h.2.1 (by decide), ?_⟩
  have hmax := h.2.2.2.1 (by decide) [] ("customer_id", "customerId") []
    (by rw [detect_renamed_tables_customer_id_eval]; rfl) "customerId"
    (List.mem_singleton.mpr rfl) (by decide)
  exact hmax

/-- C8: for a table present in both snapshots and a column present in
both of its column maps under the same name, `compute_diff` emits exactly
one `column_type_changed` record for that table/column if and only if the
two type strings differ, and every such record carries the old and new
type strings in `old_value`/`new_value`. -/
theorem type_change_detection (detect : Bool) (old_schema new_schema : Schema)
    (t c tyO tyN : String) (cmO cmN : ColMap)
    (hO : alookup t old_schema = some cmO) (hN : alookup t new_schema = some cmN)
    (hcO : alookup c cmO = some tyO) (hcN : alookup c cmN = some tyN)
    (hndO : (keyList old_schema).Nodup) (hndCO : (keyList cmO).Nodup) :
    (compute_diff detect old_schema new_schema).countP (fun r =>
      decide (r.diff_type = DiffType.COLUMN_TYPE_CHANGED ∧ r.table_name = t ∧
        r.column_name = some c)) = (if tyO ≠ tyN then 1 else 0) ∧
    ∀ r ∈ compute_diff detect old_schema new_schema,
      r.diff_type = DiffType.COLUMN_TYPE_CHANGED → r.table_name = t →
      r.column_name = some c →
      r.old_value = some tyO ∧ r.new_value = some tyN := by
  have hto : t ∈ keyList old_schema := alookup_some_mem t old_schema cmO hO
  have htn : t ∈ keyList new_schema := alookup_some_mem t new_schema cmN hN
  have hcoK : c ∈ keyList cmO := alookup_some_mem c cmO tyO hcO
  have hcnK : c ∈ keyList cmN := alookup_some_mem c cmN tyN hcN
  have hcmp_zero : ∀ x, x ≠ t →
      (compare_table_schema detect x ((alookup x old_schema).getD [])
        ((alookup x new_schema).getD [])).countP (fun r =>
        decide (r.diff_type = DiffType.COLUMN_TYPE_CHANGED ∧ r.table_name = t ∧
          r.column_name = some c)) = 0 := by
    intro x hxt
    apply List.countP_eq_zero.mpr
    intro r hr
    have hname := compare_table_schema_table_name detect x _ _ r hr
    simp only [decide_eq_true_eq]
    rintro ⟨_, htab, _⟩
    exact hxt (by rw [← hname, htab])
  have hmemT : ∀ x, x ∈ setInter
      ((keyList old_schema).filter fun x => decide (x ∉
        (if detect then
          detect_renamed_tables (setDiff (keyList old_schema) (keyList new_schema))
            (setDiff (keyList new_schema) (keyList old_schema))
        else []).map Prod.fst))
      ((keyList new_schema).filter fun x => decide (x ∉
        (if detect then
          detect_renamed_tables (setDiff (keyList old_schema) (keyList new_schema))
            (setDiff (keyList new_schema) (keyList old_schema))
        else []).map Prod.snd)) ↔
      x ∈ keyList old_schema ∧ x ∈ keyList new_schema := by
    intro x
    exact mem_common_iff _ _ _
      (fun p hp => (renamed_tables_mem detect _ _ p hp).1)
      (fun p hp => (renamed_tables_mem detect _ _ p hp).2) x
  have hmemC : ∀ x, x ∈ setInter
      ((keyList cmO).filter fun x => decide (x ∉
        (if detect then
          detect_renamed_columns t (setDiff (keyList cmO) (keyList cmN))
            (setDiff (keyList cmN) (keyList cmO))
        else []).map Prod.fst))
      ((keyList cmN).filter fun x => decide (x ∉
        (if detect then
          detect_renamed_columns t (setDiff (keyList cmO) (keyList cmN))
            (setDiff (keyList cmN) (keyList cmO))
        else []).map Prod.snd)) ↔
      x ∈ keyList cmO ∧ x ∈ keyList cmN := by
    intro x
    exact mem_common_iff _ _ _
      (fun p hp => (renamed_cols_mem detect t _ _ p hp).1)
      (fun p hp => (renamed_cols_mem detect t _ _ p hp).2) x
  constructor
  · rw [compute_diff_eq]
    rw [List.countP_append, List.countP_append, List.countP_append]
    rw [List.countP_map, List.countP_map, List.countP_map]
    rw [List.countP_eq_zero.mpr (fun a _ => by simp),
      List.countP_eq_zero.mpr (fun a _ => by simp),
      List.countP_eq_zero.mpr (fun a _ => by simp)]
    rw [countP_flatMap_single _ ?hndT t
      ((hmemT t).mpr ⟨hto, htn⟩) _ _
      (fun x _ hxt => hcmp_zero x hxt)]
    case hndT =>
      rw [setInter]
      exact (hndO.filter _).filter _
    rw [hO, hN, Option.getD_some, Option.getD_some]
    rw [compare_table_schema_eq]
    rw [List.countP_append, List.countP_append, List.countP_append]
    rw [List.countP_map, List.countP_map, List.countP_map]
    rw [List.countP_eq_zero.mpr (fun a _ => by simp),
      List.countP_eq_zero.mpr (fun a _ => by simp),
      List.countP_eq_zero.mpr (fun a _ => by simp)]
    rw [List.countP_filterMap]
    rw [countP_single_elem _ ?hndC c
      ((hmemC c).mpr ⟨hcoK, hcnK⟩) _ ?hq0]
    case hndC =>
      rw [setInter]
      exact (hndCO.filter _).filter _
    case hq0 =>
      intro x _ hxc
      by_cases hcond : alookup x cmO ≠ alookup x cmN <;> simp [hcond, hxc]
    by_cases hty : tyO = tyN
    · subst hty
      have hcond : ¬ alookup c cmO ≠ alookup c cmN := by rw [hcO, hcN]; simp
      simp [hcond]
    · have hcond : alookup c cmO ≠ alookup c cmN := by
        rw [hcO, hcN]
        simp [hty]
      simp [hcond, hty]
  · rw [compute_diff_eq]
    intro r hr hkind htab hcol
    rcases List.mem_append.mp hr with hr3 | h
    · rcases List.mem_append.mp hr3 with hr2 | h
      · rcases List.mem_append.mp hr2 with h | h
        · rcases List.mem_map.mp h with ⟨a, _, ha⟩
          rw [← ha] at hkind
          simp at hkind
        · rcases List.mem_map.mp h with ⟨a, _, ha⟩
          rw [← ha] at hkind
          simp at hkind
      · rcases List.mem_map.mp h with ⟨a, _, ha⟩
        rw [← ha] at hkind
        simp at hkind
    · rcases List.mem_flatMap.mp h with ⟨x, hx, hrx⟩
      have hname := compare_table_schema_table_name detect x _ _ r hrx
      have hxt : x = t := by rw [← hname, htab]
      subst hxt
      rw [hO, hN, Option.getD_some, Option.getD_some] at hrx
      rw [compare_table_schema_eq] at hrx
      rcases List.mem_append.mp hrx with hr3 | h
      · rcases List.mem_append.mp hr3 with hr2 | h
        · rcases List.mem_append.mp hr2 with h | h
          · rcases List.mem_map.mp h with ⟨a, _, ha⟩
            rw [← ha] at hkind
            simp at hkind
          · rcases List.mem_map.mp h with ⟨a, _, ha⟩
            rw [← ha] at hkind
            simp at hkind
        · rcases List.mem_map.mp h with ⟨a, _, ha⟩
          rw [← ha] at hkind
          simp at hkind
      · rcases List.mem_filterMap.mp h with ⟨a, _, ha⟩
        by_cases hcond : alookup a cmO ≠ alookup a cmN
        · rw [if_pos hcond] at ha
          cases ha
          simp only [Option.some.injEq] at hcol
          subst hcol
          exact ⟨hcO, hcN⟩
        · rw [if_neg hcond] at ha
          cases ha

/-- Witness for C8: an `id` column changing from `INTEGER` to `TEXT`
yields exactly one `column_type_changed` record with those values. -/
theorem type_change_detection_witness :
    (compute_diff true [("customers", [("id", "INTEGER")])]
      [("customers", [("id", "TEXT")])]).countP (fun r =>
      decide (r.diff_type = DiffType.COLUMN_TYPE_CHANGED ∧
        r.table_name = "customers" ∧ r.column_name = some "id")) = 1 := by
  have h := type_change_detection true [("customers", [("id", "INTEGER")])]
    [("customers", [("id", "TEXT")])] "customers" "id" "INTEGER" "TEXT"
    [("id", "INTEGER")] [("id", "TEXT")] rfl rfl rfl rfl (by decide) (by decide)
  rw [h.1]
  simp

/-- C9: diff symmetry of existence — `compute_diff A B` and
`compute_diff B A` (same `detect_renames` setting) report the same
affected table and column names, with the add/remove kinds swapped
(`table_added ↔ table_removed`, `column_added ↔ column_removed`). -/
theorem diff_symmetry (d : Bool) (A B : Schema) (t c : String) :
    ((∃ r ∈ compute_diff d A B,
        r.diff_type = DiffType.TABLE_ADDED ∧ r.table_name = t) ↔
      (∃ r ∈ compute_diff d B A,
        r.diff_type = DiffType.TABLE_REMOVED ∧ r.table_name = t)) ∧
    ((∃ r ∈ compute_diff d A B,
        r.diff_type = DiffType.TABLE_REMOVED ∧ r.table_name = t) ↔
      (∃ r ∈ compute_diff d B A,
        r.diff_type = DiffType.TABLE_ADDED ∧ r.table_name = t)) ∧
    ((∃ r ∈ compute_diff d A B, r.diff_type = DiffType.COLUMN_ADDED ∧
        r.table_name = t ∧ r.column_name = some c) ↔
      (∃ r ∈ compute_diff d B A, r.diff_type = DiffType.COLUMN_REMOVED ∧
        r.table_name = t ∧ r.column_name = some c)) ∧
    ((∃ r ∈ compute_diff d A B, r.diff_type = DiffType.COLUMN_REMOVED ∧
        r.table_name = t ∧ r.column_name = some c) ↔
      (∃ r ∈ compute_diff d B A, r.diff_type = DiffType.COLUMN_ADDED ∧
        r.table_name = t ∧ r.column_name = some c)) ∧
    ((∃ r ∈ compute_diff d A B, r.table_name = t) ↔
      (∃ r ∈ compute_diff d B A, r.table_name = t)) ∧
    ((∃ r ∈ compute_diff d A B, r.table_name = t ∧ r.column_name = some c) ↔
      (∃ r ∈ compute_diff d B A, r.table_name = t ∧ r.column_name = some c)) := by
  have hcmp : ∀ oc nc : ColMap,
      compare_table_schema d t oc nc ≠ [] ↔
      compare_table_schema d t nc oc ≠ [] := by
    intro oc nc
    rw [compare_table_ne_nil_iff, compare_table_ne_nil_iff]
    constructor
    · rintro (⟨x, h1, h2⟩ | ⟨x, h1, h2⟩ | ⟨x, h1, h2, h3⟩)
      · exact Or.inr (Or.inl ⟨x, h1, h2⟩)
      · exact Or.inl ⟨x, h1, h2⟩
      · exact Or.inr (Or.inr ⟨x, h2, h1, fun hh => h3 hh.symm⟩)
    · rintro (⟨x, h1, h2⟩ | ⟨x, h1, h2⟩ | ⟨x, h1, h2, h3⟩)
      · exact Or.inr (Or.inl ⟨x, h1, h2⟩)
      · exact Or.inl ⟨x, h1, h2⟩
      · exact Or.inr (Or.inr ⟨x, h2, h1, fun hh => h3 hh.symm⟩)
  refine ⟨?_, ?_, ?_, ?_, ?_, ?_⟩
  · rw [table_added_mem_iff, table_removed_mem_iff]
  · rw [table_removed_mem_iff, table_added_mem_iff]
  · rw [column_added_mem_iff, column_removed_mem_iff]
    constructor
    · rintro ⟨h1, h2, h3, h4⟩
      exact ⟨h2, h1, h3, h4⟩
    · rintro ⟨h1, h2, h3, h4⟩
      exact ⟨h2, h1, h3, h4⟩
  · rw [column_removed_mem_iff, column_added_mem_iff]
    constructor
    · rintro ⟨h1, h2, h3, h4⟩
      exact ⟨h2, h1, h3, h4⟩
    · rintro ⟨h1, h2, h3, h4⟩
      exact ⟨h2, h1, h3, h4⟩
  · rw [affected_table_iff, affected_table_iff]
    constructor
    · rintro (⟨h1, h2⟩ | ⟨h1, h2⟩ | ⟨h1, h2, h3⟩)
      · exact Or.inr (Or.inl ⟨h1, h2⟩)
      · exact Or.inl ⟨h1, h2⟩
      · exact Or.inr (Or.inr ⟨h2, h1, (hcmp _ _).mp h3⟩)
    · rintro (⟨h1, h2⟩ | ⟨h1, h2⟩ | ⟨h1, h2, h3⟩)
      · exact Or.inr (Or.inl ⟨h1, h2⟩)
      · exact Or.inl ⟨h1, h2⟩
      · exact Or.inr (Or.inr ⟨h2, h1, (hcmp _ _).mp h3⟩)
  · rw [affected_column_iff, affected_column_iff]
    constructor
    · rintro ⟨h1, h2, hc⟩
      refine ⟨h2, h1, ?_⟩
      rcases hc with ⟨h3, h4⟩ | ⟨h3, h4⟩ | ⟨h3, h4, h5⟩
      · exact Or.inr (Or.inl ⟨h3, h4⟩)
      · exact Or.inl ⟨h3, h4⟩
      · exact Or.inr (Or.inr ⟨h4, h3, fun hh => h5 hh.symm⟩)
    · rintro ⟨h1, h2, hc⟩
      refine ⟨h2, h1, ?_⟩
      rcases hc with ⟨h3, h4⟩ | ⟨h3, h4⟩ | ⟨h3, h4, h5⟩
      · exact Or.inr (Or.inl ⟨h3, h4⟩)
      · exact Or.inl ⟨h3, h4⟩
      · exact Or.inr (Or.inr ⟨h4, h3, fun hh => h5 hh.symm⟩)

/-- C2: the schema hash is a pure function of snapshot content under the
canonical sorted-key serialization — permuting a snapshot's internal key
ordering leaves the hash unchanged; content-equal snapshots hash
identically; the serialization is injective up to content equality (so
equal serializations mean content-equal snapshots); and equal hashes come
from content-equal snapshots except across a SHA-256 collision of
distinct serializations. -/
theorem hash_canonical (s1 s2 : Schema) (h1 : WfSchema s1) (h2 : WfSchema s2) :
    (SnapPerm s1 s2 → compute_hash s1 = compute_hash s2) ∧
    (contentEq s1 s2 → compute_hash s1 = compute_hash s2) ∧
    (json_dumps_sorted s1 = json_dumps_sorted s2 → contentEq s1 s2) ∧
    (compute_hash s1 = compute_hash s2 →
      contentEq s1 s2 ∨ json_dumps_sorted s1 ≠ json_dumps_sorted s2) := by
  have hCE : contentEq s1 s2 → compute_hash s1 = compute_hash s2 := by
    intro hc
    rw [compute_hash, compute_hash,
      json_dumps_canon s1 s2 (canonSnap_eq_of_contentEq s1 s2 h1 h2 hc)]
  have hInj : json_dumps_sorted s1 = json_dumps_sorted s2 → contentEq s1 s2 :=
    fun hd => canonSnap_imp_contentEq s1 s2 h1 h2 (json_dumps_inj s1 s2 hd)
  refine ⟨fun hp => hCE (snapPerm_contentEq s1 s2 h1 hp), hCE, hInj, fun _ => ?_⟩
  by_cases hd : json_dumps_sorted s1 = json_dumps_sorted s2
  · exact Or.inl (hInj hd)
  · exact Or.inr hd

/-- Witness for C2: permuting both the table order and a column order of
a concrete snapshot leaves its hash unchanged. -/
theorem hash_canonical_witness :
    compute_hash [("orders", [("id", "INTEGER"), ("amount", "REAL")]),
      ("customers", [("id", "INTEGER")])] =
    compute_hash [("customers", [("id", "INTEGER")]),
      ("orders", [("amount", "REAL"), ("id", "INTEGER")])] := by
  apply (hash_canonical _ _ ⟨by decide, by decide⟩ ⟨by decide, by decide⟩).1
  constructor
  · decide
  · intro t cm1 cm2 hc1 hc2
    by_cases ht1 : t = "orders"
    · subst ht1
      rw [show alookup "orders" [("orders", [("id", "INTEGER"), ("amount", "REAL")]),
          ("customers", [("id", "INTEGER")])] =
          some [("id", "INTEGER"), ("amount", "REAL")] from by decide] at hc1
      rw [show alookup "orders" [("customers", [("id", "INTEGER")]),
          ("orders", [("amount", "REAL"), ("id", "INTEGER")])] =
          some [("amount", "REAL"), ("id", "INTEGER")] from by decide] at hc2
      injection hc1 with hc1
      injection hc2 with hc2
      rw [← hc1, ← hc2]
      decide
    · by_cases ht2 : t = "customers"
      · subst ht2
        rw [show alookup "customers" [("orders", [("id", "INTEGER"),
            ("amount", "REAL")]), ("customers", [("id", "INTEGER")])] =
            some [("id", "INTEGER")] from by decide] at hc1
        rw [show alookup "customers" [("customers", [("id", "INTEGER")]),
            ("orders", [("amount", "REAL"), ("id", "INTEGER")])] =
            some [("id", "INTEGER")] from by decide] at hc2
        injection hc1 with hc1
        injection hc2 with hc2
        rw [← hc1, ← hc2]
      · rw [show ∀ m : Schema, t ∉ keyList m → alookup t m = none from
          fun m => (alookup_eq_none_iff t m).mpr] at hc1
        · exact absurd hc1 (by simp)
        · simp [keyList, ht1, ht2]

end SchemaVerify
